import Mathlib

/-!
Verification of the sign-comparison engine (`src/lib/signComparison.ts`).

The engine is pure arithmetic over landmark frames.  JavaScript numbers are
idealized as exact real numbers extended with the three special values
`NaN`, `+Infinity` and `-Infinity` (type `JSNum` below); every arithmetic
operation the engine uses is translated with JavaScript's semantics on those
special values.  Rounding error of IEEE doubles is abstracted away; the
special-value propagation, which is what the specification's claims are
about, is kept exactly.
-/

/-- A JavaScript number, idealized: an exact real, `NaN`, or an infinity. -/
inductive JSNum where
  | fin (x : ℝ)
  | nan
  | posInf
  | negInf

/-- JavaScript `+` on numbers. -/
noncomputable def jsAdd : JSNum → JSNum → JSNum
  | .nan, _ => .nan
  | _, .nan => .nan
  | .posInf, .negInf => .nan
  | .negInf, .posInf => .nan
  | .posInf, _ => .posInf
  | _, .posInf => .posInf
  | .negInf, _ => .negInf
  | _, .negInf => .negInf
  | .fin a, .fin b => .fin (a + b)

/-- JavaScript `-` on numbers. -/
noncomputable def jsSub : JSNum → JSNum → JSNum
  | .nan, _ => .nan
  | _, .nan => .nan
  | .posInf, .posInf => .nan
  | .negInf, .negInf => .nan
  | .posInf, _ => .posInf
  | _, .posInf => .negInf
  | .negInf, _ => .negInf
  | _, .negInf => .posInf
  | .fin a, .fin b => .fin (a - b)

open Classical in
/-- JavaScript `*` on numbers. -/
noncomputable def jsMul : JSNum → JSNum → JSNum
  | .nan, _ => .nan
  | _, .nan => .nan
  | .posInf, .posInf => .posInf
  | .posInf, .negInf => .negInf
  | .negInf, .posInf => .negInf
  | .negInf, .negInf => .posInf
  | .posInf, .fin b => if b = 0 then .nan else if 0 < b then .posInf else .negInf
  | .fin a, .posInf => if a = 0 then .nan else if 0 < a then .posInf else .negInf
  | .negInf, .fin b => if b = 0 then .nan else if 0 < b then .negInf else .posInf
  | .fin a, .negInf => if a = 0 then .nan else if 0 < a then .negInf else .posInf
  | .fin a, .fin b => .fin (a * b)

open Classical in
/-- JavaScript `/` on numbers (division by zero yields an infinity or `NaN`). -/
noncomputable def jsDiv : JSNum → JSNum → JSNum
  | .nan, _ => .nan
  | _, .nan => .nan
  | .posInf, .posInf => .nan
  | .posInf, .negInf => .nan
  | .negInf, .posInf => .nan
  | .negInf, .negInf => .nan
  | .posInf, .fin b => if 0 ≤ b then .posInf else .negInf
  | .negInf, .fin b => if 0 ≤ b then .negInf else .posInf
  | .fin _, .posInf => .fin 0
  | .fin _, .negInf => .fin 0
  | .fin a, .fin b =>
      if b = 0 then (if a = 0 then .nan else if 0 < a then .posInf else .negInf)
      else .fin (a / b)

/-- JavaScript `Math.min` of two numbers (`NaN` wins). -/
noncomputable def jsMin : JSNum → JSNum → JSNum
  | .nan, _ => .nan
  | _, .nan => .nan
  | .negInf, _ => .negInf
  | _, .negInf => .negInf
  | .posInf, b => b
  | a, .posInf => a
  | .fin a, .fin b => .fin (min a b)

/-- JavaScript `Math.max` of two numbers (`NaN` wins). -/
noncomputable def jsMax : JSNum → JSNum → JSNum
  | .nan, _ => .nan
  | _, .nan => .nan
  | .posInf, _ => .posInf
  | _, .posInf => .posInf
  | .negInf, b => b
  | a, .negInf => a
  | .fin a, .fin b => .fin (max a b)

open Classical in
/-- JavaScript `Math.pow` with a rational exponent.  A negative finite base
with a non-integer exponent yields `NaN` — the semantics responsible for the
`NaN` escape proved below. -/
noncomputable def jsPow : JSNum → ℚ → JSNum
  | .nan, _ => .nan
  | .posInf, e => if 0 < e then .posInf else if e < 0 then .fin 0 else .fin 1
  | .negInf, e =>
      if 0 < e then (if e.den = 1 ∧ Odd e.num then .negInf else .posInf)
      else if e < 0 then .fin 0 else .fin 1
  | .fin b, e =>
      if b < 0 then (if e.den = 1 then .fin (b ^ e.num) else .nan)
      else if b = 0 ∧ e < 0 then .posInf
      else .fin (b ^ (e : ℝ))

/-- JavaScript `isNaN`. -/
def jsIsNaN : JSNum → Bool
  | .nan => true
  | _ => false

/-- JavaScript `isFinite`. -/
def jsIsFinite : JSNum → Bool
  | .fin _ => true
  | _ => false

open Classical in
/-- JavaScript `>=` on numbers (`false` whenever `NaN` is involved). -/
noncomputable def jsGeB : JSNum → JSNum → Bool
  | .nan, _ => false
  | _, .nan => false
  | .posInf, _ => true
  | _, .posInf => false
  | _, .negInf => true
  | .negInf, _ => false
  | .fin a, .fin b => decide (b ≤ a)

open Classical in
/-- Whether a JavaScript number is strictly positive (`false` for `NaN`). -/
noncomputable def jsPosB : JSNum → Bool
  | .fin x => decide (0 < x)
  | .posInf => true
  | _ => false

theorem jsAdd_fin (a b : ℝ) : jsAdd (.fin a) (.fin b) = .fin (a + b) := rfl

theorem jsSub_fin (a b : ℝ) : jsSub (.fin a) (.fin b) = .fin (a - b) := rfl

theorem jsMul_fin (a b : ℝ) : jsMul (.fin a) (.fin b) = .fin (a * b) := rfl

theorem jsMin_fin (a b : ℝ) : jsMin (.fin a) (.fin b) = .fin (min a b) := rfl

theorem jsMax_fin (a b : ℝ) : jsMax (.fin a) (.fin b) = .fin (max a b) := rfl

theorem jsDiv_fin_of_ne (a b : ℝ) (hb : b ≠ 0) :
    jsDiv (.fin a) (.fin b) = .fin (a / b) := by
  simp [jsDiv, hb]

theorem jsGeB_fin (a b : ℝ) : jsGeB (.fin a) (.fin b) = decide (b ≤ a) := rfl

/-! ## Data model (`src/lib/mediapipe.ts`) -/

/-- One hand landmark: three coordinates (interface `HandKeypoint`). -/
structure HandKeypoint where
  x : ℝ
  y : ℝ
  z : ℝ

/-- One detected hand (interface `HandLandmarks`). -/
structure HandLandmarks where
  landmarks : List HandKeypoint
  handedness : String

/-- One face landmark: three coordinates (interface `FaceKeypoint`). -/
structure FaceKeypoint where
  x : ℝ
  y : ℝ
  z : ℝ

/-- Detected face landmarks (interface `FaceLandmarks`). -/
structure FaceLandmarks where
  landmarks : List FaceKeypoint

/-- One captured frame (interface `FrameData`): timestamp, detected hands,
optional face. -/
structure FrameData where
  timestamp : ℝ
  hands : List HandLandmarks
  face : Option FaceLandmarks

/-- A stored reference sign, as `compareWithDatabase` receives it
(`{id, name, keyframes}`). -/
structure SavedSign where
  id : String
  name : String
  keyframes : List FrameData

/-- Interface `ComparisonResult` of `signComparison.ts`. -/
structure ComparisonResult where
  signId : String
  signName : String
  similarity : JSNum
  isMatch : Bool

/-! ## Configuration constants of `SignComparisonService` -/

/-- `SIMILARITY_THRESHOLD = 0.92`. -/
noncomputable def SIMILARITY_THRESHOLD : ℝ := 92 / 100

/-- `TARGET_FRAMES = 60`. -/
def TARGET_FRAMES : ℕ := 60

/-- `MIN_QUALITY_FRAMES = 40`.  Declared by the service; no method of
`signComparison.ts` reads it (relevant to the resampler claims below). -/
def MIN_QUALITY_FRAMES : ℕ := 40

/-- The default frame `List.getD` falls back to; the translated code only
indexes in bounds, so it is never produced. -/
def dummyFrame : FrameData := ⟨0, [], none⟩

/-! ## `normalizeSequence` (lines 18–30)

`step = (frames.length - 1) / (TARGET_FRAMES - 1)`; for each output index
`i < TARGET_FRAMES` the frame at source index
`min (round (i * step)) (frames.length - 1)` is selected.  JavaScript's
`Math.round x = ⌊x + 1/2⌋`, which is Mathlib's `round` on `ℚ`. -/

/-- Lines 18–30 of `signComparison.ts`. -/
def normalizeSequence (frames : List FrameData) : List FrameData :=
  if frames.isEmpty then []
  else
    (List.range TARGET_FRAMES).map fun (i : ℕ) =>
      let step : ℚ := ((frames.length : ℚ) - 1) / ((TARGET_FRAMES : ℚ) - 1)
      let index : ℕ := (round ((i : ℚ) * step)).toNat
      frames.getD (min index (frames.length - 1)) dummyFrame

/-! ## `extractFeatures` (lines 35–85) -/

/-- `keyLandmarks = [0, 4, 8, 12, 16, 20]` (wrist and fingertips). -/
def keyLandmarks : List ℕ := [0, 4, 8, 12, 16, 20]

/-- The weight a landmark index receives (`1.5` for key landmarks). -/
noncomputable def lmWeight (idx : ℕ) : ℝ := if idx ∈ keyLandmarks then 3 / 2 else 1

/-- The `hand.landmarks.forEach((landmark, index) => …)` loop of
`extractFeatures`: three wrist-relative weighted coordinates per landmark,
in landmark order, starting at index `idx`. -/
noncomputable def coordLoop (wrist : HandKeypoint) : ℕ → List HandKeypoint → List ℝ
  | _, [] => []
  | idx, lm :: rest =>
      (lm.x - wrist.x) * lmWeight idx :: (lm.y - wrist.y) * lmWeight idx ::
        (lm.z - wrist.z) * lmWeight idx :: coordLoop wrist (idx + 1) rest

/-- The index pairs `(i, j)`, `i < j`, of the nested distance loops of
`extractFeatures` (lines 60–71). -/
def keyPairs : List (ℕ × ℕ) :=
  (List.range (keyLandmarks.length - 1)).flatMap fun i =>
    (List.range' (i + 1) (keyLandmarks.length - (i + 1))).map fun j => (i, j)

/-- The origin keypoint, the `getD` fallback for in-bounds indexing. -/
def zeroKeypoint : HandKeypoint := ⟨0, 0, 0⟩

/-- The pairwise key-landmark distances pushed by lines 60–71. -/
noncomputable def distFeats (landmarks : List HandKeypoint) : List ℝ :=
  keyPairs.map fun p =>
    let p1 := landmarks.getD (keyLandmarks.getD p.1 0) zeroKeypoint
    let p2 := landmarks.getD (keyLandmarks.getD p.2 0) zeroKeypoint
    Real.sqrt ((p1.x - p2.x) ^ 2 + (p1.y - p2.y) ^ 2 + (p1.z - p2.z) ^ 2)

/-- Lines 35–85 of `signComparison.ts`: per valid hand (exactly 21
landmarks) 63 wrist-relative coordinates and 15 key distances; `[]` hands
yield the 78-length zero vector; otherwise the vector is zero-padded and
truncated to 156. -/
noncomputable def extractFeatures (frameData : FrameData) : List ℝ :=
  let features := frameData.hands.foldl
    (fun acc hand =>
      if hand.landmarks.length = 21 then
        acc ++ coordLoop (hand.landmarks.getD 0 zeroKeypoint) 0 hand.landmarks ++
          distFeats hand.landmarks
      else acc)
    []
  if features.length = 0 then List.replicate 78 0
  else (features ++ List.replicate (156 - features.length) 0).take 156

/-! ## `cosineSimilarity` and `euclideanDistance` (lines 90–158) -/

open Classical in
/-- Lines 90–106: cosine similarity, `0` on length mismatch or zero norm.
On real inputs every branch is a real number, so the result is a plain `ℝ`. -/
noncomputable def cosineSimilarity (a b : List ℝ) : ℝ :=
  if a.length ≠ b.length then 0
  else
    let dotProduct := ((a.zip b).map fun p => p.1 * p.2).sum
    let normA := (a.map fun x => x * x).sum
    let normB := ((a.zip b).map fun p => p.2 * p.2).sum
    if normA = 0 ∨ normB = 0 then 0
    else dotProduct / (Real.sqrt normA * Real.sqrt normB)

/-- Lines 149–158: Euclidean distance, `Infinity` on length mismatch. -/
noncomputable def euclideanDistance (a b : List ℝ) : JSNum :=
  if a.length ≠ b.length then .posInf
  else .fin (Real.sqrt (((a.zip b).map fun p => (p.1 - p.2) ^ 2).sum))

/-! ## `calculateDTW` (lines 111–144)

The loops fill each matrix cell exactly once, in dependency order, from the
recurrence of the code; `dtwCell` is that recurrence.  The `Infinity` the
matrix is initialized with is overwritten before any read. -/

/-- Cell `(i, j)` of the `dtw` cost matrix of lines 116–140. -/
noncomputable def dtwCell (seq1 seq2 : List (List ℝ)) : ℕ → ℕ → JSNum
  | 0, 0 => euclideanDistance (seq1.getD 0 []) (seq2.getD 0 [])
  | i + 1, 0 =>
      jsAdd (dtwCell seq1 seq2 i 0)
        (euclideanDistance (seq1.getD (i + 1) []) (seq2.getD 0 []))
  | 0, j + 1 =>
      jsAdd (dtwCell seq1 seq2 0 j)
        (euclideanDistance (seq1.getD 0 []) (seq2.getD (j + 1) []))
  | i + 1, j + 1 =>
      jsAdd (euclideanDistance (seq1.getD (i + 1) []) (seq2.getD (j + 1) []))
        (jsMin (dtwCell seq1 seq2 i (j + 1))
          (jsMin (dtwCell seq1 seq2 (i + 1) j) (dtwCell seq1 seq2 i j)))

/-- Lines 111–144: total DTW cost `dtw[m-1][n-1]`, normalized by `m + n`. -/
noncomputable def calculateDTW (seq1 seq2 : List (List ℝ)) : JSNum :=
  jsDiv (dtwCell seq1 seq2 (seq1.length - 1) (seq2.length - 1))
    (.fin ((seq1.length : ℝ) + (seq2.length : ℝ)))

/-! ## `compareSequences` (lines 163–232)

The body is pure arithmetic over total functions, so the `try/catch` can
raise nothing; every branch of the source is translated.  The cosine loop
guard (`!isNaN(cosineResult) && isFinite(cosineResult)`) is kept on the
`JSNum`-wrapped cosine value. -/

/-- The cosine accumulation loop of lines 205–213. -/
noncomputable def cosineSum (features1 features2 : List (List ℝ)) (minFrames : ℕ) : JSNum :=
  (List.range minFrames).foldl
    (fun acc i =>
      let cosineResult : JSNum :=
        .fin (cosineSimilarity (features1.getD i []) (features2.getD i []))
      if jsIsNaN cosineResult = false ∧ jsIsFinite cosineResult = true then
        jsAdd acc cosineResult
      else acc)
    (.fin 0)

/-- Lines 163–232 of `signComparison.ts`. -/
noncomputable def compareSequences (sequence1 sequence2 : List FrameData) : JSNum :=
  if sequence1.isEmpty || sequence2.isEmpty then .fin 0
  else
    let norm1 := normalizeSequence sequence1
    let norm2 := normalizeSequence sequence2
    if norm1.isEmpty || norm2.isEmpty then .fin 0
    else
      let features1 := norm1.map extractFeatures
      let features2 := norm2.map extractFeatures
      if features1.isEmpty || features2.isEmpty then .fin 0
      else
        let dtwDistance := calculateDTW features1 features2
        if jsIsNaN dtwDistance = true ∨ jsIsFinite dtwDistance = false then .fin 0
        else
          let maxDistance : JSNum := .fin 10
          let dtwSimilarity := jsMax (.fin 0) (jsSub (.fin 1) (jsDiv dtwDistance maxDistance))
          let minFrames := min features1.length features2.length
          let cosineSimilaritySum := cosineSum features1 features2 minFrames
          let avgCosineSimilarity :=
            if 0 < minFrames then jsDiv cosineSimilaritySum (.fin (minFrames : ℝ))
            else .fin 0
          let finalDtwSim := if jsIsNaN dtwSimilarity = true then .fin 0 else dtwSimilarity
          let finalCosineSim :=
            if jsIsNaN avgCosineSimilarity = true then .fin 0 else avgCosineSimilarity
          let finalSimilarity :=
            jsAdd (jsMul finalDtwSim (.fin (7 / 10))) (jsMul finalCosineSim (.fin (3 / 10)))
          let smoothedSimilarity := jsPow finalSimilarity (6 / 5 : ℚ)
          jsMax (.fin 0) (jsMin (.fin 1) smoothedSimilarity)

/-! ## `compareWithDatabase` and `findBestMatch` (lines 237–290)

`results.sort((a, b) => b.similarity - a.similarity)` is ECMAScript's stable
sort; with a `NaN` comparator value treated as `0` ("equal").  It is modelled
as a stable insertion sort with exactly that comparator. -/

/-- Whether the sort keeps `a` in front of `b`: the comparator
`b.similarity - a.similarity` is not strictly positive (a `NaN` comparator
value counts as zero). -/
noncomputable def sortKeeps (a b : ComparisonResult) : Bool :=
  !(jsPosB (jsSub b.similarity a.similarity))

/-- Stable insertion of one result into a sorted run. -/
noncomputable def insertResult (a : ComparisonResult) :
    List ComparisonResult → List ComparisonResult
  | [] => [a]
  | b :: t => if sortKeeps a b then a :: b :: t else b :: insertResult a t

/-- The stable descending-similarity sort of line 276. -/
noncomputable def sortResults : List ComparisonResult → List ComparisonResult
  | [] => []
  | a :: t => insertResult a (sortResults t)

/-- Lines 237–277: one result per saved sign with non-empty keyframes
(empty ones are skipped with `continue`), sorted by similarity descending. -/
noncomputable def compareWithDatabase (recordedFrames : List FrameData)
    (savedSigns : List SavedSign) : List ComparisonResult :=
  if recordedFrames.isEmpty then []
  else if savedSigns.isEmpty then []
  else
    sortResults <| savedSigns.filterMap fun savedSign =>
      if savedSign.keyframes.isEmpty then none
      else
        let similarity := compareSequences recordedFrames savedSign.keyframes
        some ⟨savedSign.id, savedSign.name, similarity,
          jsGeB similarity (.fin SIMILARITY_THRESHOLD)⟩

/-- Lines 282–290: the top-ranked result if it is a match, else `null`. -/
noncomputable def findBestMatch (recordedFrames : List FrameData)
    (savedSigns : List SavedSign) : Option ComparisonResult :=
  match compareWithDatabase recordedFrames savedSigns with
  | [] => none
  | r :: _ => if r.isMatch then some r else none

/-! ## Lemmas: list indexing -/

/-- `getD` through `map`, at an in-bounds index. -/
theorem getD_map_of_lt {α β : Type} (f : α → β) (l : List α) (i : ℕ) (d : α) (d' : β)
    (h : i < l.length) : (l.map f).getD i d' = f (l.getD i d) := by
  rw [List.getD_eq_getElem _ _ (by simpa using h), List.getD_eq_getElem _ _ h]
  simp

/-! ## Lemmas: `normalizeSequence` -/

theorem normalizeSequence_nil : normalizeSequence [] = [] := rfl

theorem normalizeSequence_length (frames : List FrameData) (h : frames ≠ []) :
    (normalizeSequence frames).length = TARGET_FRAMES := by
  have hne : frames.isEmpty = false := by simpa [List.isEmpty_iff] using h
  rw [normalizeSequence, hne]
  simp only [Bool.false_eq_true, if_false, List.length_map, List.length_range]

theorem normalizeSequence_getD (frames : List FrameData) (h : frames ≠ [])
    (i : ℕ) (hi : i < TARGET_FRAMES) :
    (normalizeSequence frames).getD i dummyFrame
      = frames.getD
          (min ((round (((i : ℚ) * ((frames.length : ℚ) - 1)) / ((TARGET_FRAMES : ℚ) - 1))).toNat)
            (frames.length - 1)) dummyFrame := by
  have hne : frames.isEmpty = false := by simpa [List.isEmpty_iff] using h
  rw [normalizeSequence, hne]
  simp only [Bool.false_eq_true, if_false]
  rw [List.getD_eq_getElem _ _ (by simpa using hi)]
  simp only [List.getElem_map, List.getElem_range]
  rw [mul_div_assoc]

theorem normalizeSequence_mem (frames : List FrameData) (h : frames ≠ []) :
    ∀ x ∈ normalizeSequence frames, x ∈ frames := by
  intro x hx
  have hne : frames.isEmpty = false := by simpa [List.isEmpty_iff] using h
  rw [normalizeSequence, hne] at hx
  simp only [Bool.false_eq_true, if_false, List.mem_map] at hx
  obtain ⟨i, -, rfl⟩ := hx
  have hlen : 0 < frames.length := List.length_pos.mpr h
  have hlt : min ((round (((i : ℚ) * (((frames.length : ℚ) - 1) / ((TARGET_FRAMES : ℚ) - 1))))).toNat)
      (frames.length - 1) < frames.length :=
    lt_of_le_of_lt (min_le_right _ _) (Nat.sub_lt hlen one_pos)
  rw [List.getD_eq_getElem _ _ hlt]
  exact List.getElem_mem _

theorem normalizeSequence_singleton (f : FrameData) :
    normalizeSequence [f] = List.replicate TARGET_FRAMES f := by
  rw [List.eq_replicate_iff]
  refine ⟨normalizeSequence_length [f] (by simp), ?_⟩
  intro b hb
  have := normalizeSequence_mem [f] (by simp) b hb
  simpa using this

/-! ## Lemmas: `extractFeatures` -/

theorem coordLoop_length (w : HandKeypoint) :
    ∀ (idx : ℕ) (lms : List HandKeypoint), (coordLoop w idx lms).length = 3 * lms.length := by
  intro idx lms
  induction lms generalizing idx with
  | nil => simp [coordLoop]
  | cons a t ih => simp [coordLoop, ih]; ring

theorem keyPairs_eq :
    keyPairs = [(0, 1), (0, 2), (0, 3), (0, 4), (0, 5), (1, 2), (1, 3), (1, 4), (1, 5),
      (2, 3), (2, 4), (2, 5), (3, 4), (3, 5), (4, 5)] := by
  decide

theorem distFeats_length (lms : List HandKeypoint) : (distFeats lms).length = 15 := by
  rw [distFeats, List.length_map, keyPairs_eq]
  rfl

/-- The per-hand step of the `frameData.hands.forEach` loop of
`extractFeatures`. -/
noncomputable def handStep (acc : List ℝ) (hand : HandLandmarks) : List ℝ :=
  if hand.landmarks.length = 21 then
    acc ++ coordLoop (hand.landmarks.getD 0 zeroKeypoint) 0 hand.landmarks ++
      distFeats hand.landmarks
  else acc

theorem extractFeatures_def (frameData : FrameData) :
    extractFeatures frameData =
      (if (frameData.hands.foldl handStep []).length = 0 then List.replicate 78 0
       else ((frameData.hands.foldl handStep []) ++
          List.replicate (156 - (frameData.hands.foldl handStep []).length) 0).take 156) := rfl

theorem foldl_handStep_length (hands : List HandLandmarks) (acc : List ℝ) :
    (hands.foldl handStep acc).length
      = acc.length + 78 * (hands.countP fun h => decide (h.landmarks.length = 21)) := by
  induction hands generalizing acc with
  | nil => simp
  | cons h t ih =>
    by_cases hv : h.landmarks.length = 21
    · rw [List.foldl_cons]
      rw [show handStep acc h = acc ++ coordLoop (h.landmarks.getD 0 zeroKeypoint) 0 h.landmarks ++
          distFeats h.landmarks from by simp [handStep, hv]]
      rw [ih]
      simp [List.countP_cons, hv, coordLoop_length, distFeats_length]
      ring
    · rw [List.foldl_cons]
      rw [show handStep acc h = acc from by simp [handStep, hv]]
      rw [ih]
      simp [List.countP_cons, hv]

theorem extractFeatures_of_no_valid (frameData : FrameData)
    (h : ∀ hd ∈ frameData.hands, hd.landmarks.length ≠ 21) :
    extractFeatures frameData = List.replicate 78 0 := by
  rw [extractFeatures_def]
  have hlen : (frameData.hands.foldl handStep []).length = 0 := by
    rw [foldl_handStep_length]
    simp only [List.length_nil, Nat.zero_add, Nat.mul_eq_zero]
    right
    rw [List.countP_eq_zero]
    intro a ha
    simpa using h a ha
  simp [hlen]

theorem extractFeatures_length_of_valid (frameData : FrameData)
    (h : ∃ hd ∈ frameData.hands, hd.landmarks.length = 21) :
    (extractFeatures frameData).length = 156 := by
  rw [extractFeatures_def]
  have hpos : 0 < frameData.hands.countP fun hd => decide (hd.landmarks.length = 21) := by
    rw [List.countP_pos_iff]
    obtain ⟨hd, hmem, hlen⟩ := h
    exact ⟨hd, hmem, by simpa using hlen⟩
  have hlen : (frameData.hands.foldl handStep []).length
      = 78 * (frameData.hands.countP fun hd => decide (hd.landmarks.length = 21)) := by
    rw [foldl_handStep_length]; simp
  rw [if_neg (by omega)]
  rw [List.length_take, List.length_append, List.length_replicate]
  omega

theorem extractFeatures_single (ts : ℝ) (hand : HandLandmarks) (face : Option FaceLandmarks)
    (h : hand.landmarks.length = 21) :
    extractFeatures ⟨ts, [hand], face⟩
      = coordLoop (hand.landmarks.getD 0 zeroKeypoint) 0 hand.landmarks ++
          distFeats hand.landmarks ++ List.replicate 78 0 := by
  rw [extractFeatures_def]
  have hfold : ([hand].foldl handStep []) = coordLoop (hand.landmarks.getD 0 zeroKeypoint) 0
      hand.landmarks ++ distFeats hand.landmarks := by
    simp [handStep, h]
  rw [hfold]
  have h78 : (coordLoop (hand.landmarks.getD 0 zeroKeypoint) 0 hand.landmarks ++
      distFeats hand.landmarks).length = 78 := by
    simp [coordLoop_length, distFeats_length, h]
  rw [if_neg (by omega)]
  rw [h78]
  rw [List.take_of_length_le (by
    simp only [List.length_append, List.length_replicate, coordLoop_length, distFeats_length, h]
    omega)]

/-! ## Lemmas: `cosineSimilarity` and `euclideanDistance` -/

theorem zip_self {α : Type} (v : List α) : v.zip v = v.map fun x => (x, x) := by
  induction v with
  | nil => rfl
  | cons a t ih => simp [List.zip_cons_cons, ih]

theorem sumSq_nonneg (v : List ℝ) : 0 ≤ (v.map fun x => x * x).sum := by
  apply List.sum_nonneg
  intro x hx
  obtain ⟨y, -, rfl⟩ := List.mem_map.mp hx
  exact mul_self_nonneg y

theorem cosineSimilarity_mismatch (a b : List ℝ) (h : a.length ≠ b.length) :
    cosineSimilarity a b = 0 := by
  simp [cosineSimilarity, h]

theorem cosineSimilarity_self (v : List ℝ) (h : (v.map fun x => x * x).sum ≠ 0) :
    cosineSimilarity v v = 1 := by
  have hzip : ((v.zip v).map fun p => p.1 * p.2) = v.map fun x => x * x := by
    rw [zip_self, List.map_map]
    exact List.map_congr_left fun x _ => rfl
  have hzip2 : ((v.zip v).map fun p => p.2 * p.2) = v.map fun x => x * x := by
    rw [zip_self, List.map_map]
    exact List.map_congr_left fun x _ => rfl
  rw [cosineSimilarity, if_neg (by simp)]
  simp only [hzip, hzip2]
  rw [if_neg (by simpa using h)]
  rw [Real.mul_self_sqrt (sumSq_nonneg v)]
  exact div_self h

theorem cosineSimilarity_zero_left (n : ℕ) (y : List ℝ) :
    cosineSimilarity (List.replicate n (0 : ℝ)) y = 0 := by
  by_cases hl : (List.replicate n (0 : ℝ)).length = y.length
  · rw [cosineSimilarity, if_neg (by simpa using hl)]
    rw [if_pos]
    left
    simp
  · exact cosineSimilarity_mismatch _ _ (by simpa using hl)

theorem euclideanDistance_self (v : List ℝ) : euclideanDistance v v = .fin 0 := by
  rw [euclideanDistance, if_neg (by simp)]
  have hs : ((v.zip v).map fun p => (p.1 - p.2) ^ 2).sum = 0 := by
    rw [zip_self, List.map_map]
    have : (v.map ((fun p : ℝ × ℝ => (p.1 - p.2) ^ 2) ∘ fun x => (x, x)))
        = v.map fun _ => (0 : ℝ) := by
      apply List.map_congr_left
      intro x _
      simp
    rw [this]
    simp
  rw [hs, Real.sqrt_zero]

/-- A `JSNum` that is a nonnegative real or `+Infinity` (every DTW cell). -/
def JSNonneg (v : JSNum) : Prop := (∃ x : ℝ, v = .fin x ∧ 0 ≤ x) ∨ v = .posInf

theorem euclideanDistance_nonneg (a b : List ℝ) : JSNonneg (euclideanDistance a b) := by
  rw [euclideanDistance]
  by_cases h : a.length ≠ b.length
  · rw [if_pos h]
    right
    rfl
  · rw [if_neg h]
    left
    exact ⟨_, rfl, Real.sqrt_nonneg _⟩

theorem jsAdd_nonneg {a b : JSNum} (ha : JSNonneg a) (hb : JSNonneg b) :
    JSNonneg (jsAdd a b) := by
  rcases ha with ⟨x, rfl, hx⟩ | rfl <;> rcases hb with ⟨y, rfl, hy⟩ | rfl
  · exact Or.inl ⟨x + y, rfl, by positivity⟩
  · exact Or.inr rfl
  · exact Or.inr rfl
  · exact Or.inr rfl

theorem jsMin_nonneg {a b : JSNum} (ha : JSNonneg a) (hb : JSNonneg b) :
    JSNonneg (jsMin a b) := by
  rcases ha with ⟨x, rfl, hx⟩ | rfl <;> rcases hb with ⟨y, rfl, hy⟩ | rfl
  · exact Or.inl ⟨min x y, rfl, le_min hx hy⟩
  · exact Or.inl ⟨x, rfl, hx⟩
  · exact Or.inl ⟨y, rfl, hy⟩
  · exact Or.inr rfl

theorem jsMin_nonneg_zero {c : JSNum} (hc : JSNonneg c) : jsMin c (.fin 0) = .fin 0 := by
  rcases hc with ⟨x, rfl, hx⟩ | rfl
  · rw [jsMin_fin, min_eq_right hx]
  · rfl

theorem dtwCell_nonneg (s1 s2 : List (List ℝ)) : ∀ i j, JSNonneg (dtwCell s1 s2 i j) := by
  have key : ∀ n i j, i + j = n → JSNonneg (dtwCell s1 s2 i j) := by
    intro n
    induction n using Nat.strong_induction_on with
    | _ n ih =>
      intro i j hij
      cases i with
      | zero =>
        cases j with
        | zero =>
          simp only [dtwCell]
          exact euclideanDistance_nonneg _ _
        | succ j =>
          simp only [dtwCell]
          exact jsAdd_nonneg (ih (0 + j) (by omega) 0 j rfl) (euclideanDistance_nonneg _ _)
      | succ i =>
        cases j with
        | zero =>
          simp only [dtwCell]
          exact jsAdd_nonneg (ih (i + 0) (by omega) i 0 rfl) (euclideanDistance_nonneg _ _)
        | succ j =>
          simp only [dtwCell]
          exact jsAdd_nonneg (euclideanDistance_nonneg _ _)
            (jsMin_nonneg (ih (i + (j + 1)) (by omega) i (j + 1) rfl)
              (jsMin_nonneg (ih ((i + 1) + j) (by omega) (i + 1) j rfl)
                (ih (i + j) (by omega) i j rfl)))
  intro i j
  exact key (i + j) i j rfl

theorem dtwCell_diag (F : List (List ℝ)) : ∀ i, dtwCell F F i i = .fin 0 := by
  intro i
  induction i with
  | zero =>
    simp only [dtwCell]
    exact euclideanDistance_self _
  | succ i ih =>
    simp only [dtwCell]
    rw [ih]
    rw [jsMin_nonneg_zero (dtwCell_nonneg F F (i + 1) i)]
    rw [jsMin_nonneg_zero (dtwCell_nonneg F F i (i + 1))]
    rw [euclideanDistance_self, jsAdd_fin]
    norm_num

theorem getD_replicate_of_lt {α : Type} (a d : α) {m i : ℕ} (h : i < m) :
    (List.replicate m a).getD i d = a := by
  rw [List.getD_eq_getElem _ _ (by simpa using h)]
  simp

theorem dtwCell_const (va vb : List ℝ) (dv : ℝ)
    (hd : euclideanDistance va vb = .fin dv) (hdv : 0 ≤ dv) (m n : ℕ) :
    ∀ i j, i < m → j < n →
      dtwCell (List.replicate m va) (List.replicate n vb) i j
        = .fin (((max i j + 1 : ℕ) : ℝ) * dv) := by
  have hget1 : ∀ i, i < m → (List.replicate m va).getD i [] = va := fun i hi =>
    getD_replicate_of_lt va [] hi
  have hget2 : ∀ j, j < n → (List.replicate n vb).getD j [] = vb := fun j hj =>
    getD_replicate_of_lt vb [] hj
  have key : ∀ N i j, i + j = N → i < m → j < n →
      dtwCell (List.replicate m va) (List.replicate n vb) i j
        = .fin (((max i j + 1 : ℕ) : ℝ) * dv) := by
    intro N
    induction N using Nat.strong_induction_on with
    | _ N ih =>
      intro i j hij him hjn
      cases i with
      | zero =>
        cases j with
        | zero =>
          simp only [dtwCell]
          rw [hget1 0 him, hget2 0 hjn, hd]
          norm_num
        | succ j =>
          simp only [dtwCell]
          rw [ih (0 + j) (by omega) 0 j rfl him (by omega)]
          rw [hget1 0 him, hget2 (j + 1) hjn, hd, jsAdd_fin]
          congr 1
          rw [Nat.zero_max, Nat.zero_max]
          push_cast
          ring
      | succ i =>
        cases j with
        | zero =>
          simp only [dtwCell]
          rw [ih (i + 0) (by omega) i 0 rfl (by omega) hjn]
          rw [hget1 (i + 1) him, hget2 0 hjn, hd, jsAdd_fin]
          congr 1
          rw [Nat.max_zero, Nat.max_zero]
          push_cast
          ring
        | succ j =>
          simp only [dtwCell]
          rw [ih (i + (j + 1)) (by omega) i (j + 1) rfl (by omega) hjn]
          rw [ih ((i + 1) + j) (by omega) (i + 1) j rfl him (by omega)]
          rw [ih (i + j) (by omega) i j rfl (by omega) (by omega)]
          rw [hget1 (i + 1) him, hget2 (j + 1) hjn, hd]
          rw [jsMin_fin, jsMin_fin, jsAdd_fin]
          have hle1 : ((max i j + 1 : ℕ) : ℝ) * dv ≤ ((max (i + 1) j + 1 : ℕ) : ℝ) * dv :=
            mul_le_mul_of_nonneg_right (by exact_mod_cast by omega) hdv
          have hle2 : ((max i j + 1 : ℕ) : ℝ) * dv ≤ ((max i (j + 1) + 1 : ℕ) : ℝ) * dv :=
            mul_le_mul_of_nonneg_right (by exact_mod_cast by omega) hdv
          rw [min_eq_right hle1, min_eq_right hle2]
          congr 1
          have hmax : max (i + 1) (j + 1) = max i j + 1 := by omega
          rw [hmax]
          push_cast
          ring
  intro i j him hjn
  exact key (i + j) i j rfl him hjn

theorem dtwCell_posInf (s1 s2 : List (List ℝ))
    (hall : ∀ i j, euclideanDistance (s1.getD i []) (s2.getD j []) = .posInf) :
    ∀ i j, dtwCell s1 s2 i j = .posInf := by
  have key : ∀ N i j, i + j = N → dtwCell s1 s2 i j = .posInf := by
    intro N
    induction N using Nat.strong_induction_on with
    | _ N ih =>
      intro i j hij
      cases i with
      | zero =>
        cases j with
        | zero =>
          simp only [dtwCell]
          exact hall 0 0
        | succ j =>
          simp only [dtwCell]
          rw [ih (0 + j) (by omega) 0 j rfl, hall 0 (j + 1)]
          rfl
      | succ i =>
        cases j with
        | zero =>
          simp only [dtwCell]
          rw [ih (i + 0) (by omega) i 0 rfl, hall (i + 1) 0]
          rfl
        | succ j =>
          simp only [dtwCell]
          rw [ih (i + (j + 1)) (by omega) i (j + 1) rfl]
          rw [ih ((i + 1) + j) (by omega) (i + 1) j rfl]
          rw [ih (i + j) (by omega) i j rfl]
          rw [hall (i + 1) (j + 1)]
          rfl
  intro i j
  exact key (i + j) i j rfl

/-! ## Lemmas: `compareSequences` -/

theorem cosineSum_zero (f1 f2 : List (List ℝ)) : cosineSum f1 f2 0 = .fin 0 := rfl

theorem cosineSum_succ (f1 f2 : List (List ℝ)) (k : ℕ) :
    cosineSum f1 f2 (k + 1)
      = jsAdd (cosineSum f1 f2 k)
          (.fin (cosineSimilarity (f1.getD k []) (f2.getD k []))) := by
  rw [cosineSum, List.range_succ, List.foldl_append, ← cosineSum]
  simp [jsIsNaN, jsIsFinite]

theorem cosineSum_const (f1 f2 : List (List ℝ)) (k : ℕ) (c : ℝ)
    (h : ∀ i, i < k → cosineSimilarity (f1.getD i []) (f2.getD i []) = c) :
    cosineSum f1 f2 k = .fin ((k : ℝ) * c) := by
  induction k with
  | zero => rw [cosineSum_zero]; norm_num
  | succ k ih =>
    rw [cosineSum_succ, ih (fun i hi => h i (Nat.lt_succ_of_lt hi)), h k (Nat.lt_succ_self k)]
    rw [jsAdd_fin]
    congr 1
    push_cast
    ring

theorem isEmpty_false_of_ne_nil {α : Type} {l : List α} (h : l ≠ []) : l.isEmpty = false := by
  simpa [List.isEmpty_iff] using h

theorem normalizeSequence_ne_nil (s : List FrameData) (h : s ≠ []) :
    normalizeSequence s ≠ [] := by
  intro h0
  have hl := normalizeSequence_length s h
  rw [h0] at hl
  simp [TARGET_FRAMES] at hl

theorem compareSequences_main (s1 s2 : List FrameData) (h1 : s1 ≠ []) (h2 : s2 ≠ [])
    (dv c : ℝ)
    (hd : calculateDTW ((normalizeSequence s1).map extractFeatures)
        ((normalizeSequence s2).map extractFeatures) = .fin dv)
    (hc : cosineSum ((normalizeSequence s1).map extractFeatures)
        ((normalizeSequence s2).map extractFeatures) 60 = .fin c) :
    compareSequences s1 s2
      = jsMax (.fin 0) (jsMin (.fin 1)
          (jsPow (.fin (max 0 (1 - dv / 10) * (7 / 10) + c / 60 * (3 / 10))) (6 / 5 : ℚ))) := by
  have e1 : s1.isEmpty = false := isEmpty_false_of_ne_nil h1
  have e2 : s2.isEmpty = false := isEmpty_false_of_ne_nil h2
  have en1 : (normalizeSequence s1).isEmpty = false :=
    isEmpty_false_of_ne_nil (normalizeSequence_ne_nil s1 h1)
  have en2 : (normalizeSequence s2).isEmpty = false :=
    isEmpty_false_of_ne_nil (normalizeSequence_ne_nil s2 h2)
  have ef1 : ((normalizeSequence s1).map extractFeatures).isEmpty = false :=
    isEmpty_false_of_ne_nil (by
      simpa using normalizeSequence_ne_nil s1 h1)
  have ef2 : ((normalizeSequence s2).map extractFeatures).isEmpty = false :=
    isEmpty_false_of_ne_nil (by
      simpa using normalizeSequence_ne_nil s2 h2)
  have hl1 : ((normalizeSequence s1).map extractFeatures).length = 60 := by
    rw [List.length_map, normalizeSequence_length s1 h1]
    rfl
  have hl2 : ((normalizeSequence s2).map extractFeatures).length = 60 := by
    rw [List.length_map, normalizeSequence_length s2 h2]
    rfl
  rw [compareSequences]
  rw [e1, e2]
  simp only [Bool.or_self, Bool.false_eq_true, if_false]
  rw [en1, en2]
  simp only [Bool.or_self, Bool.false_eq_true, if_false]
  rw [ef1, ef2]
  simp only [Bool.or_self, Bool.false_eq_true, if_false]
  rw [hd]
  rw [if_neg (by simp [jsIsNaN, jsIsFinite])]
  rw [hl1, hl2]
  simp only [Nat.min_self]
  rw [hc]
  rw [if_pos (show (0 : ℕ) < 60 from by norm_num)]
  push_cast
  simp only [jsDiv_fin_of_ne dv 10 (by norm_num : (10 : ℝ) ≠ 0),
    jsDiv_fin_of_ne c 60 (by norm_num : (60 : ℝ) ≠ 0), jsSub_fin, jsMax_fin]
  rw [if_neg (show ¬(jsIsNaN (JSNum.fin (max 0 (1 - dv / 10))) = true) from by
    simp [jsIsNaN])]
  rw [if_neg (show ¬(jsIsNaN (JSNum.fin (c / 60)) = true) from by simp [jsIsNaN])]
  simp only [jsMul_fin, jsAdd_fin]

theorem jsClampPow_neg (fv : ℝ) (h : fv < 0) :
    jsMax (.fin 0) (jsMin (.fin 1) (jsPow (.fin fv) (6 / 5 : ℚ))) = .nan := by
  rw [jsPow]
  rw [if_pos h, if_neg (by norm_num : ¬((6 / 5 : ℚ).den = 1))]
  rfl

theorem jsClampPow_nonneg (fv : ℝ) (h : 0 ≤ fv) :
    jsMax (.fin 0) (jsMin (.fin 1) (jsPow (.fin fv) (6 / 5 : ℚ)))
      = .fin (max 0 (min 1 (fv ^ (((6 / 5 : ℚ) : ℝ))))) := by
  rw [jsPow]
  rw [if_neg (not_lt.mpr h), if_neg (by
    rintro ⟨-, he⟩
    norm_num at he)]
  rw [jsMin_fin, jsMax_fin]

theorem cosineSum_isFin (f1 f2 : List (List ℝ)) (k : ℕ) :
    ∃ c : ℝ, cosineSum f1 f2 k = .fin c := by
  induction k with
  | zero => exact ⟨0, rfl⟩
  | succ k ih =>
    obtain ⟨c, hc⟩ := ih
    rw [cosineSum_succ, hc, jsAdd_fin]
    exact ⟨_, rfl⟩

theorem jsDiv_nonneg {a : JSNum} (k : ℝ) (ha : JSNonneg a) (hk : 0 < k) :
    JSNonneg (jsDiv a (.fin k)) := by
  rcases ha with ⟨x, rfl, hx⟩ | rfl
  · rw [jsDiv_fin_of_ne x k (ne_of_gt hk)]
    exact Or.inl ⟨_, rfl, div_nonneg hx hk.le⟩
  · rw [jsDiv]
    rw [if_pos hk.le]
    exact Or.inr rfl

theorem calculateDTW_nonneg (F1 F2 : List (List ℝ)) (h : 0 < F1.length + F2.length) :
    JSNonneg (calculateDTW F1 F2) := by
  rw [calculateDTW]
  have hk : (0 : ℝ) < (F1.length : ℝ) + (F2.length : ℝ) := by exact_mod_cast h
  exact jsDiv_nonneg _ (dtwCell_nonneg F1 F2 _ _) hk

theorem compareSequences_dtw_not_fin (s1 s2 : List FrameData) (h1 : s1 ≠ []) (h2 : s2 ≠ [])
    (hd : jsIsNaN (calculateDTW ((normalizeSequence s1).map extractFeatures)
          ((normalizeSequence s2).map extractFeatures)) = true
        ∨ jsIsFinite (calculateDTW ((normalizeSequence s1).map extractFeatures)
          ((normalizeSequence s2).map extractFeatures)) = false) :
    compareSequences s1 s2 = .fin 0 := by
  have e1 : s1.isEmpty = false := isEmpty_false_of_ne_nil h1
  have e2 : s2.isEmpty = false := isEmpty_false_of_ne_nil h2
  have en1 : (normalizeSequence s1).isEmpty = false :=
    isEmpty_false_of_ne_nil (normalizeSequence_ne_nil s1 h1)
  have en2 : (normalizeSequence s2).isEmpty = false :=
    isEmpty_false_of_ne_nil (normalizeSequence_ne_nil s2 h2)
  have ef1 : ((normalizeSequence s1).map extractFeatures).isEmpty = false :=
    isEmpty_false_of_ne_nil (by simpa using normalizeSequence_ne_nil s1 h1)
  have ef2 : ((normalizeSequence s2).map extractFeatures).isEmpty = false :=
    isEmpty_false_of_ne_nil (by simpa using normalizeSequence_ne_nil s2 h2)
  rw [compareSequences]
  rw [e1, e2]
  simp only [Bool.or_self, Bool.false_eq_true, if_false]
  rw [en1, en2]
  simp only [Bool.or_self, Bool.false_eq_true, if_false]
  rw [ef1, ef2]
  simp only [Bool.or_self, Bool.false_eq_true, if_false]
  rw [if_pos hd]

theorem compareSequences_shape (s1 s2 : List FrameData) :
    compareSequences s1 s2 = .nan
      ∨ ∃ v : ℝ, compareSequences s1 s2 = .fin v ∧ 0 ≤ v ∧ v ≤ 1 := by
  by_cases h1 : s1.isEmpty = true
  · right
    refine ⟨0, ?_, le_refl 0, by norm_num⟩
    rw [compareSequences, h1]
    simp
  by_cases h2 : s2.isEmpty = true
  · right
    refine ⟨0, ?_, le_refl 0, by norm_num⟩
    have e1 : s1.isEmpty = false := by simpa using h1
    rw [compareSequences, e1, h2]
    simp
  have hn1 : s1 ≠ [] := by
    intro h
    rw [h] at h1
    exact h1 rfl
  have hn2 : s2 ≠ [] := by
    intro h
    rw [h] at h2
    exact h2 rfl
  have hnn : JSNonneg (calculateDTW ((normalizeSequence s1).map extractFeatures)
      ((normalizeSequence s2).map extractFeatures)) := by
    apply calculateDTW_nonneg
    have hL := normalizeSequence_length s1 hn1
    simp only [List.length_map]
    rw [hL]
    norm_num [TARGET_FRAMES]
  rcases hnn with ⟨dv, hd, hdv⟩ | hinf
  · obtain ⟨c, hc⟩ := cosineSum_isFin ((normalizeSequence s1).map extractFeatures)
      ((normalizeSequence s2).map extractFeatures) 60
    rw [compareSequences_main s1 s2 hn1 hn2 dv c hd hc]
    by_cases hfv : max 0 (1 - dv / 10) * (7 / 10) + c / 60 * (3 / 10) < 0
    · left
      exact jsClampPow_neg _ hfv
    · right
      rw [jsClampPow_nonneg _ (not_lt.mp hfv)]
      refine ⟨_, rfl, le_max_left 0 _, ?_⟩
      exact max_le (by norm_num) (min_le_left 1 _)
  · right
    refine ⟨0, ?_, le_refl 0, by norm_num⟩
    apply compareSequences_dtw_not_fin s1 s2 hn1 hn2
    right
    rw [hinf]
    rfl

/-! ## Lemmas: the result sort and the matcher -/

theorem mem_insertResult (a : ComparisonResult) (l : List ComparisonResult)
    (y : ComparisonResult) : y ∈ insertResult a l ↔ y = a ∨ y ∈ l := by
  induction l with
  | nil => simp [insertResult]
  | cons b t ih =>
    rw [insertResult]
    by_cases hk : sortKeeps a b = true
    · rw [if_pos hk]
      simp
    · rw [if_neg hk]
      simp only [List.mem_cons, ih]
      tauto

theorem length_insertResult (a : ComparisonResult) (l : List ComparisonResult) :
    (insertResult a l).length = l.length + 1 := by
  induction l with
  | nil => rfl
  | cons b t ih =>
    rw [insertResult]
    by_cases hk : sortKeeps a b = true
    · rw [if_pos hk]
      simp
    · rw [if_neg hk]
      simp [ih]

theorem mem_sortResults (l : List ComparisonResult) (y : ComparisonResult) :
    y ∈ sortResults l ↔ y ∈ l := by
  induction l with
  | nil => simp [sortResults]
  | cons a t ih =>
    rw [sortResults, mem_insertResult]
    simp [ih]

theorem length_sortResults (l : List ComparisonResult) :
    (sortResults l).length = l.length := by
  induction l with
  | nil => rfl
  | cons a t ih =>
    rw [sortResults, length_insertResult, ih]
    rfl

/-- Descending order on results: the earlier similarity is JS-`>=` the later. -/
def simRel (a b : ComparisonResult) : Prop := jsGeB a.similarity b.similarity = true

theorem jsGeB_fin_iff (x y : ℝ) : jsGeB (.fin x) (.fin y) = true ↔ y ≤ x := by
  rw [jsGeB_fin]
  exact decide_eq_true_iff

theorem sortKeeps_fin_iff (a b : ComparisonResult) (x y : ℝ)
    (ha : a.similarity = .fin x) (hb : b.similarity = .fin y) :
    sortKeeps a b = true ↔ y ≤ x := by
  rw [sortKeeps, ha, hb, jsSub_fin, jsPosB]
  simp [sub_pos]

theorem insertResult_pairwise (a : ComparisonResult) (l : List ComparisonResult)
    (hfa : ∃ x, a.similarity = .fin x)
    (hfl : ∀ r ∈ l, ∃ x, r.similarity = .fin x)
    (hp : l.Pairwise simRel) : (insertResult a l).Pairwise simRel := by
  induction l with
  | nil => simp [insertResult, List.pairwise_singleton]
  | cons b t ih =>
    obtain ⟨xa, ha⟩ := hfa
    obtain ⟨xb, hb⟩ := hfl b (List.mem_cons_self b t)
    rw [insertResult]
    by_cases hk : sortKeeps a b = true
    · rw [if_pos hk]
      have hba : xb ≤ xa := (sortKeeps_fin_iff a b xa xb ha hb).mp hk
      refine List.Pairwise.cons ?_ hp
      intro y hy
      rcases List.mem_cons.mp hy with rfl | hyt
      · rw [simRel, ha, hb]
        exact (jsGeB_fin_iff xa xb).mpr hba
      · obtain ⟨xy, hysim⟩ := hfl y (List.mem_cons_of_mem b hyt)
        have hby : simRel b y := (List.pairwise_cons.mp hp).1 y hyt
        rw [simRel, hb, hysim] at hby
        have : xy ≤ xb := (jsGeB_fin_iff xb xy).mp hby
        rw [simRel, ha, hysim]
        exact (jsGeB_fin_iff xa xy).mpr (le_trans this hba)
    · rw [if_neg hk]
      have hab : xa < xb := by
        by_contra hcon
        exact hk ((sortKeeps_fin_iff a b xa xb ha hb).mpr (not_lt.mp hcon))
      refine List.Pairwise.cons ?_ (ih (fun r hr => hfl r (List.mem_cons_of_mem b hr))
        (List.pairwise_cons.mp hp).2)
      intro y hy
      rcases (mem_insertResult a t y).mp hy with rfl | hyt
      · rw [simRel, hb, ha]
        exact (jsGeB_fin_iff xb xa).mpr hab.le
      · exact (List.pairwise_cons.mp hp).1 y hyt

theorem sortResults_pairwise (l : List ComparisonResult)
    (hfl : ∀ r ∈ l, ∃ x, r.similarity = .fin x) : (sortResults l).Pairwise simRel := by
  induction l with
  | nil => exact List.Pairwise.nil
  | cons a t ih =>
    rw [sortResults]
    refine insertResult_pairwise a (sortResults t) (hfl a (List.mem_cons_self a t)) ?_ ?_
    · intro r hr
      exact hfl r (List.mem_cons_of_mem a ((mem_sortResults t r).mp hr))
    · exact ih fun r hr => hfl r (List.mem_cons_of_mem a hr)

theorem mem_compareWithDatabase (recordedFrames : List FrameData) (savedSigns : List SavedSign)
    (r : ComparisonResult) :
    r ∈ compareWithDatabase recordedFrames savedSigns
      ↔ recordedFrames ≠ [] ∧ ∃ s ∈ savedSigns, s.keyframes ≠ [] ∧
          r = ⟨s.id, s.name, compareSequences recordedFrames s.keyframes,
            jsGeB (compareSequences recordedFrames s.keyframes) (.fin SIMILARITY_THRESHOLD)⟩ := by
  rw [compareWithDatabase]
  by_cases h1 : recordedFrames.isEmpty = true
  · rw [if_pos h1]
    have : recordedFrames = [] := by simpa [List.isEmpty_iff] using h1
    simp [this]
  · have hne : recordedFrames ≠ [] := by
      intro h
      rw [h] at h1
      exact h1 rfl
    rw [if_neg h1]
    by_cases h2 : savedSigns.isEmpty = true
    · rw [if_pos h2]
      have : savedSigns = [] := by simpa [List.isEmpty_iff] using h2
      simp [this]
    · rw [if_neg h2]
      rw [mem_sortResults, List.mem_filterMap]
      constructor
      · rintro ⟨s, hs, hsome⟩
        by_cases hkf : s.keyframes.isEmpty = true
        · rw [if_pos hkf] at hsome
          exact absurd hsome (by simp)
        · rw [if_neg hkf] at hsome
          refine ⟨hne, s, hs, ?_, ?_⟩
          · intro h
            rw [h] at hkf
            exact hkf rfl
          · exact (Option.some_inj.mp hsome).symm
      · rintro ⟨-, s, hs, hkf, rfl⟩
        refine ⟨s, hs, ?_⟩
        rw [if_neg (by simpa [List.isEmpty_iff] using hkf)]

theorem compareWithDatabase_isMatch (recordedFrames : List FrameData)
    (savedSigns : List SavedSign) :
    ∀ r ∈ compareWithDatabase recordedFrames savedSigns,
      r.isMatch = jsGeB r.similarity (.fin SIMILARITY_THRESHOLD) := by
  intro r hr
  obtain ⟨-, s, -, -, rfl⟩ := (mem_compareWithDatabase recordedFrames savedSigns r).mp hr
  rfl

theorem compareWithDatabase_sim_fin (recordedFrames : List FrameData)
    (savedSigns : List SavedSign) (r : ComparisonResult)
    (hr : r ∈ compareWithDatabase recordedFrames savedSigns)
    (hnan : r.similarity ≠ .nan) :
    ∃ v : ℝ, r.similarity = .fin v ∧ 0 ≤ v ∧ v ≤ 1 := by
  obtain ⟨-, s, -, -, rfl⟩ := (mem_compareWithDatabase recordedFrames savedSigns r).mp hr
  rcases compareSequences_shape recordedFrames s.keyframes with hn | ⟨v, hv, h0, h1⟩
  · exact absurd hn hnan
  · exact ⟨v, hv, h0, h1⟩

theorem compareWithDatabase_pairwise (recordedFrames : List FrameData)
    (savedSigns : List SavedSign)
    (hnan : ∀ r ∈ compareWithDatabase recordedFrames savedSigns, r.similarity ≠ .nan) :
    (compareWithDatabase recordedFrames savedSigns).Pairwise simRel := by
  rw [compareWithDatabase]
  by_cases h1 : recordedFrames.isEmpty = true
  · rw [if_pos h1]
    exact List.Pairwise.nil
  rw [if_neg h1]
  by_cases h2 : savedSigns.isEmpty = true
  · rw [if_pos h2]
    exact List.Pairwise.nil
  rw [if_neg h2]
  apply sortResults_pairwise
  intro r hr
  have hmem : r ∈ compareWithDatabase recordedFrames savedSigns := by
    rw [compareWithDatabase, if_neg h1, if_neg h2, mem_sortResults]
    exact hr
  obtain ⟨v, hv, -, -⟩ := compareWithDatabase_sim_fin recordedFrames savedSigns r hmem
    (hnan r hmem)
  exact ⟨v, hv⟩

theorem findBestMatch_iff (recordedFrames : List FrameData) (savedSigns : List SavedSign)
    (r : ComparisonResult) :
    findBestMatch recordedFrames savedSigns = some r
      ↔ (compareWithDatabase recordedFrames savedSigns).head? = some r ∧ r.isMatch = true := by
  rw [findBestMatch]
  cases hres : compareWithDatabase recordedFrames savedSigns with
  | nil => simp
  | cons r0 rest =>
    simp only [List.head?_cons, Option.some_inj]
    by_cases hm : r0.isMatch = true
    · rw [if_pos hm]
      constructor
      · intro h
        obtain rfl : r0 = r := Option.some_inj.mp h
        exact ⟨rfl, hm⟩
      · rintro ⟨rfl, -⟩
        rfl
    · rw [if_neg hm]
      constructor
      · intro h
        exact absurd h (by simp)
      · rintro ⟨rfl, hm'⟩
        exact absurd hm' hm

/-! ## Concrete frames exhibiting the NaN escape of `compareSequences`

`lmA`/`lmB` are 21-landmark hands: the six key landmarks at the origin, the
fifteen others at `x = 3` (resp. `x = -3`).  Their feature vectors are exact
opposites, so the per-frame cosine similarity is `-1` while the DTW
similarity is `0`, making the combined score negative; `Math.pow` of a
negative base with exponent `1.2` is `NaN`, which `Math.min`/`Math.max`
propagate. -/

/-- 21 landmarks: key landmarks at the origin, the rest at `x = 3`. -/
noncomputable def lmA : List HandKeypoint :=
  [⟨0, 0, 0⟩, ⟨3, 0, 0⟩, ⟨3, 0, 0⟩, ⟨3, 0, 0⟩, ⟨0, 0, 0⟩, ⟨3, 0, 0⟩, ⟨3, 0, 0⟩, ⟨3, 0, 0⟩,
   ⟨0, 0, 0⟩, ⟨3, 0, 0⟩, ⟨3, 0, 0⟩, ⟨3, 0, 0⟩, ⟨0, 0, 0⟩, ⟨3, 0, 0⟩, ⟨3, 0, 0⟩, ⟨3, 0, 0⟩,
   ⟨0, 0, 0⟩, ⟨3, 0, 0⟩, ⟨3, 0, 0⟩, ⟨3, 0, 0⟩, ⟨0, 0, 0⟩]

/-- 21 landmarks: key landmarks at the origin, the rest at `x = -3`. -/
noncomputable def lmB : List HandKeypoint :=
  [⟨0, 0, 0⟩, ⟨-3, 0, 0⟩, ⟨-3, 0, 0⟩, ⟨-3, 0, 0⟩, ⟨0, 0, 0⟩, ⟨-3, 0, 0⟩, ⟨-3, 0, 0⟩, ⟨-3, 0, 0⟩,
   ⟨0, 0, 0⟩, ⟨-3, 0, 0⟩, ⟨-3, 0, 0⟩, ⟨-3, 0, 0⟩, ⟨0, 0, 0⟩, ⟨-3, 0, 0⟩, ⟨-3, 0, 0⟩, ⟨-3, 0, 0⟩,
   ⟨0, 0, 0⟩, ⟨-3, 0, 0⟩, ⟨-3, 0, 0⟩, ⟨-3, 0, 0⟩, ⟨0, 0, 0⟩]

/-- A frame holding the single valid hand `lmA`. -/
noncomputable def frameA : FrameData := ⟨0, [⟨lmA, "Right"⟩], none⟩

/-- A frame holding the single valid hand `lmB`. -/
noncomputable def frameB : FrameData := ⟨0, [⟨lmB, "Right"⟩], none⟩

/-- The 63 coordinate features `extractFeatures` emits for `lmA`. -/
noncomputable def coordA : List ℝ :=
  [0, 0, 0, 3, 0, 0, 3, 0, 0, 3, 0, 0, 0, 0, 0, 3, 0, 0, 3, 0, 0, 3, 0, 0, 0, 0, 0, 3, 0, 0, 3, 
   0, 0, 3, 0, 0, 0, 0, 0, 3, 0, 0, 3, 0, 0, 3, 0, 0, 0, 0, 0, 3, 0, 0, 3, 0, 0, 3, 0, 0, 0, 0, 
   0]

/-- The 63 coordinate features `extractFeatures` emits for `lmB`. -/
noncomputable def coordB : List ℝ :=
  [0, 0, 0, -3, 0, 0, -3, 0, 0, -3, 0, 0, 0, 0, 0, -3, 0, 0, -3, 0, 0, -3, 0, 0, 0, 0, 0, -3, 
   0, 0, -3, 0, 0, -3, 0, 0, 0, 0, 0, -3, 0, 0, -3, 0, 0, -3, 0, 0, 0, 0, 0, -3, 0, 0, -3, 0, 
   0, -3, 0, 0, 0, 0, 0]

/-- The feature vector of `frameA`. -/
noncomputable def vA : List ℝ := coordA ++ List.replicate 93 0

/-- The feature vector of `frameB`. -/
noncomputable def vB : List ℝ := coordB ++ List.replicate 93 0

theorem extractFeatures_frameA : extractFeatures frameA = vA := by
  have h21 : (⟨lmA, "Right"⟩ : HandLandmarks).landmarks.length = 21 := rfl
  rw [show frameA = ⟨0, [⟨lmA, "Right"⟩], none⟩ from rfl]
  rw [extractFeatures_single 0 ⟨lmA, "Right"⟩ none h21]
  have hw : (⟨lmA, "Right"⟩ : HandLandmarks).landmarks.getD 0 zeroKeypoint = ⟨0, 0, 0⟩ := rfl
  rw [hw]
  have hcoord : coordLoop ⟨0, 0, 0⟩ 0 (⟨lmA, "Right"⟩ : HandLandmarks).landmarks = coordA := by
    show coordLoop ⟨0, 0, 0⟩ 0 lmA = coordA
    norm_num [lmA, coordLoop, lmWeight, keyLandmarks, coordA]
  have hdist : distFeats (⟨lmA, "Right"⟩ : HandLandmarks).landmarks = List.replicate 15 0 := by
    show distFeats lmA = List.replicate 15 0
    rw [distFeats, keyPairs_eq]
    norm_num [lmA, keyLandmarks, Real.sqrt_zero, List.replicate]
  rw [hcoord, hdist, vA]
  rw [show (93 : ℕ) = 15 + 78 from rfl, List.replicate_add]
  simp [List.append_assoc]

theorem extractFeatures_frameB : extractFeatures frameB = vB := by
  have h21 : (⟨lmB, "Right"⟩ : HandLandmarks).landmarks.length = 21 := rfl
  rw [show frameB = ⟨0, [⟨lmB, "Right"⟩], none⟩ from rfl]
  rw [extractFeatures_single 0 ⟨lmB, "Right"⟩ none h21]
  have hw : (⟨lmB, "Right"⟩ : HandLandmarks).landmarks.getD 0 zeroKeypoint = ⟨0, 0, 0⟩ := rfl
  rw [hw]
  have hcoord : coordLoop ⟨0, 0, 0⟩ 0 (⟨lmB, "Right"⟩ : HandLandmarks).landmarks = coordB := by
    show coordLoop ⟨0, 0, 0⟩ 0 lmB = coordB
    norm_num [lmB, coordLoop, lmWeight, keyLandmarks, coordB]
  have hdist : distFeats (⟨lmB, "Right"⟩ : HandLandmarks).landmarks = List.replicate 15 0 := by
    show distFeats lmB = List.replicate 15 0
    rw [distFeats, keyPairs_eq]
    norm_num [lmB, keyLandmarks, Real.sqrt_zero, List.replicate]
  rw [hcoord, hdist, vB]
  rw [show (93 : ℕ) = 15 + 78 from rfl, List.replicate_add]
  simp [List.append_assoc]
theorem zip_append_of_length {α β : Type} (l1 r1 : List α) (l2 r2 : List β)
    (h : l1.length = l2.length) :
    (l1 ++ r1).zip (l2 ++ r2) = l1.zip l2 ++ r1.zip r2 := by
  induction l1 generalizing l2 with
  | nil =>
    cases l2 with
    | nil => simp
    | cons b t => simp at h
  | cons a t ih =>
    cases l2 with
    | nil => simp at h
    | cons b t2 =>
      simp only [List.cons_append, List.zip_cons_cons]
      rw [ih t2 (by simpa using h)]

theorem vA_zip_vB : vA.zip vB = coordA.zip coordB ++ List.replicate 93 ((0 : ℝ), (0 : ℝ)) := by
  rw [vA, vB, zip_append_of_length _ _ _ _ (by norm_num [coordA, coordB])]
  rw [zip_self, List.map_replicate]

theorem sumSq_vA : (vA.map fun x => x * x).sum = 135 := by
  rw [vA]
  rw [List.map_append, List.sum_append, List.map_replicate]
  norm_num [coordA, List.sum_replicate]

theorem dot_vA_vB : ((vA.zip vB).map fun p => p.1 * p.2).sum = -135 := by
  rw [vA_zip_vB, List.map_append, List.sum_append, List.map_replicate]
  norm_num [coordA, coordB, List.sum_replicate]

theorem normB_vA_vB : ((vA.zip vB).map fun p => p.2 * p.2).sum = 135 := by
  rw [vA_zip_vB, List.map_append, List.sum_append, List.map_replicate]
  norm_num [coordA, coordB, List.sum_replicate]

theorem diffSq_vA_vB : ((vA.zip vB).map fun p => (p.1 - p.2) ^ 2).sum = 540 := by
  rw [vA_zip_vB, List.map_append, List.sum_append, List.map_replicate]
  norm_num [coordA, coordB, List.sum_replicate]

theorem cos_vA_vB : cosineSimilarity vA vB = -1 := by
  rw [cosineSimilarity, if_neg (by norm_num [vA, vB, coordA, coordB])]
  rw [sumSq_vA, dot_vA_vB, normB_vA_vB]
  rw [if_neg (by norm_num)]
  rw [Real.mul_self_sqrt (by norm_num : (135 : ℝ) ≥ 0)]
  norm_num

theorem euclid_vA_vB : euclideanDistance vA vB = .fin (Real.sqrt 540) := by
  rw [euclideanDistance, if_neg (by norm_num [vA, vB, coordA, coordB])]
  rw [diffSq_vA_vB]
theorem featuresA_eq : (normalizeSequence [frameA]).map extractFeatures
    = List.replicate 60 vA := by
  rw [normalizeSequence_singleton, List.map_replicate, extractFeatures_frameA]
  rfl

theorem featuresB_eq : (normalizeSequence [frameB]).map extractFeatures
    = List.replicate 60 vB := by
  rw [normalizeSequence_singleton, List.map_replicate, extractFeatures_frameB]
  rfl

theorem dtw_AB : calculateDTW (List.replicate 60 vA) (List.replicate 60 vB)
    = .fin (60 * Real.sqrt 540 / 120) := by
  rw [calculateDTW]
  simp only [List.length_replicate]
  rw [dtwCell_const vA vB (Real.sqrt 540) euclid_vA_vB (Real.sqrt_nonneg _) 60 60 59 59
    (by norm_num) (by norm_num)]
  rw [show (max 59 59 + 1 : ℕ) = 60 from by decide]
  push_cast
  rw [jsDiv_fin_of_ne _ _ (by norm_num : (60 : ℝ) + 60 ≠ 0)]
  norm_num

theorem cosSum_AB : cosineSum (List.replicate 60 vA) (List.replicate 60 vB) 60
    = .fin ((60 : ℝ) * (-1)) := by
  apply cosineSum_const
  intro i hi
  rw [getD_replicate_of_lt vA [] hi, getD_replicate_of_lt vB [] hi]
  exact cos_vA_vB

theorem sqrt540_ge_20 : (20 : ℝ) ≤ Real.sqrt 540 := by
  have h400 : Real.sqrt 400 = 20 := by
    rw [show (400 : ℝ) = 20 ^ 2 by norm_num]
    exact Real.sqrt_sq (by norm_num)
  calc (20 : ℝ) = Real.sqrt 400 := h400.symm
    _ ≤ Real.sqrt 540 := Real.sqrt_le_sqrt (by norm_num)

/-- Claim C1 (code_bug): `compareSequences` can return `NaN`.  With the
candidate `[frameA]` and the reference `[frameB]` the DTW similarity is `0`
and the mean cosine similarity is `-1`, so the combined score is `-0.3`;
`Math.pow(-0.3, 1.2)` is `NaN` in JavaScript and `Math.max(0, Math.min(1, NaN))`
is `NaN`, so the returned similarity is neither in `[0, 1]` nor replaced by
`0` — contradicting the specification's clamping guarantee. -/
theorem compareSequences_returns_nan : compareSequences [frameA] [frameB] = .nan := by
  have hd : calculateDTW ((normalizeSequence [frameA]).map extractFeatures)
      ((normalizeSequence [frameB]).map extractFeatures)
      = .fin (60 * Real.sqrt 540 / 120) := by
    rw [featuresA_eq, featuresB_eq]
    exact dtw_AB
  have hc : cosineSum ((normalizeSequence [frameA]).map extractFeatures)
      ((normalizeSequence [frameB]).map extractFeatures) 60
      = .fin ((60 : ℝ) * (-1)) := by
    rw [featuresA_eq, featuresB_eq]
    exact cosSum_AB
  rw [compareSequences_main [frameA] [frameB] (by simp) (by simp) _ _ hd hc]
  have hmax0 : max 0 (1 - 60 * Real.sqrt 540 / 120 / 10) = (0 : ℝ) := by
    apply max_eq_left
    have := sqrt540_ge_20
    linarith
  rw [show max 0 (1 - 60 * Real.sqrt 540 / 120 / 10) * (7 / 10)
      + (60 : ℝ) * (-1) / 60 * (3 / 10) = -(3 / 10) from by rw [hmax0]; norm_num]
  exact jsClampPow_neg _ (by norm_num)
theorem getD_mem {α : Type} (l : List α) (i : ℕ) (d : α) (h : i < l.length) :
    l.getD i d ∈ l := by
  rw [List.getD_eq_getElem _ _ h]
  exact List.getElem_mem h

theorem compareSequences_self (s : List FrameData) (h : s ≠ [])
    (hfeat : ∀ f ∈ s, ((extractFeatures f).map fun x => x * x).sum ≠ 0) :
    compareSequences s s = .fin 1 := by
  have hFlen : ((normalizeSequence s).map extractFeatures).length = 60 := by
    rw [List.length_map, normalizeSequence_length s h]
    rfl
  have hd : calculateDTW ((normalizeSequence s).map extractFeatures)
      ((normalizeSequence s).map extractFeatures) = .fin 0 := by
    rw [calculateDTW, dtwCell_diag]
    rw [hFlen]
    rw [jsDiv_fin_of_ne _ _ (by push_cast; norm_num : ((60 : ℕ) : ℝ) + ((60 : ℕ) : ℝ) ≠ 0)]
    norm_num
  have hc : cosineSum ((normalizeSequence s).map extractFeatures)
      ((normalizeSequence s).map extractFeatures) 60 = .fin ((60 : ℝ) * 1) := by
    apply cosineSum_const
    intro i hi
    have hlen : i < (normalizeSequence s).length := by
      rw [normalizeSequence_length s h]
      exact hi
    rw [getD_map_of_lt extractFeatures _ i dummyFrame [] hlen]
    apply cosineSimilarity_self
    exact hfeat _ (normalizeSequence_mem s h _ (getD_mem _ i dummyFrame hlen))
  rw [compareSequences_main s s h h 0 ((60 : ℝ) * 1) hd hc]
  rw [show max 0 (1 - (0 : ℝ) / 10) * (7 / 10) + (60 : ℝ) * 1 / 60 * (3 / 10) = 1 from by
    norm_num]
  rw [jsClampPow_nonneg 1 (by norm_num)]
  norm_num [Real.one_rpow]

theorem compareSequences_invalid (s1 s2 : List FrameData) (h1 : s1 ≠ [])
    (hinv : ∀ f ∈ s1, ∀ hd ∈ f.hands, hd.landmarks.length ≠ 21) (h2 : s2 ≠ []) :
    ∃ v : ℝ, compareSequences s1 s2 = .fin v ∧ 0 ≤ v ∧ v < SIMILARITY_THRESHOLD := by
  have hc : cosineSum ((normalizeSequence s1).map extractFeatures)
      ((normalizeSequence s2).map extractFeatures) 60 = .fin ((60 : ℝ) * 0) := by
    apply cosineSum_const
    intro i hi
    have hlen : i < (normalizeSequence s1).length := by
      rw [normalizeSequence_length s1 h1]
      exact hi
    rw [getD_map_of_lt extractFeatures _ i dummyFrame [] hlen]
    rw [extractFeatures_of_no_valid _
      (hinv _ (normalizeSequence_mem s1 h1 _ (getD_mem _ i dummyFrame hlen)))]
    exact cosineSimilarity_zero_left 78 _
  have hnn : JSNonneg (calculateDTW ((normalizeSequence s1).map extractFeatures)
      ((normalizeSequence s2).map extractFeatures)) := by
    apply calculateDTW_nonneg
    have hL := normalizeSequence_length s1 h1
    simp only [List.length_map]
    rw [hL]
    norm_num [TARGET_FRAMES]
  rcases hnn with ⟨dv, hd, hdv⟩ | hinf
  · rw [compareSequences_main s1 s2 h1 h2 dv ((60 : ℝ) * 0) hd hc]
    have hds0 : (0 : ℝ) ≤ max 0 (1 - dv / 10) := le_max_left 0 _
    have hds1 : max 0 (1 - dv / 10) ≤ 1 := by
      apply max_le (by norm_num)
      have : 0 ≤ dv / 10 := by positivity
      linarith
    set fv : ℝ := max 0 (1 - dv / 10) * (7 / 10) + (60 : ℝ) * 0 / 60 * (3 / 10) with hfv
    have hfv0 : 0 ≤ fv := by rw [hfv]; positivity
    have hfv7 : fv ≤ 7 / 10 := by
      rw [hfv]
      nlinarith
    rw [jsClampPow_nonneg fv hfv0]
    refine ⟨_, rfl, le_max_left 0 _, ?_⟩
    have hpow : fv ^ (((6 / 5 : ℚ) : ℝ)) ≤ 7 / 10 := by
      rcases eq_or_lt_of_le hfv0 with heq | hpos
      · rw [← heq, Real.zero_rpow (by norm_num)]
        norm_num
      · calc fv ^ (((6 / 5 : ℚ) : ℝ)) ≤ fv ^ (1 : ℝ) := by
              apply Real.rpow_le_rpow_of_exponent_ge hpos (le_trans hfv7 (by norm_num))
              norm_num
          _ = fv := Real.rpow_one fv
          _ ≤ 7 / 10 := hfv7
    have : max 0 (min 1 (fv ^ (((6 / 5 : ℚ) : ℝ)))) ≤ 7 / 10 :=
      max_le (by norm_num) (le_trans (min_le_right _ _) hpow)
    rw [SIMILARITY_THRESHOLD]
    linarith
  · refine ⟨0, ?_, le_refl 0, by rw [SIMILARITY_THRESHOLD]; norm_num⟩
    apply compareSequences_dtw_not_fin s1 s2 h1 h2
    right
    rw [hinf]
    rfl

theorem compareWithDatabase_single (recordedFrames : List FrameData) (s : SavedSign)
    (h1 : recordedFrames ≠ []) (h2 : s.keyframes ≠ []) :
    compareWithDatabase recordedFrames [s]
      = [⟨s.id, s.name, compareSequences recordedFrames s.keyframes,
          jsGeB (compareSequences recordedFrames s.keyframes) (.fin SIMILARITY_THRESHOLD)⟩] := by
  rw [compareWithDatabase]
  rw [if_neg (by rw [isEmpty_false_of_ne_nil h1]; simp)]
  rw [if_neg (by simp)]
  have hkf : s.keyframes.isEmpty = false := isEmpty_false_of_ne_nil h2
  simp only [List.filterMap_cons, List.filterMap_nil, hkf]
  simp [sortResults, insertResult]
/-- A candidate frame with no detected hands (no valid hand frames at all). -/
noncomputable def noHandsFrame : FrameData := ⟨0, [], none⟩

theorem cwdb_noHands : ∃ r : ComparisonResult,
    compareWithDatabase [noHandsFrame] [⟨"id1", "sign1", [noHandsFrame]⟩] = [r]
    ∧ r.isMatch = false := by
  obtain ⟨v, hv, h0, hlt⟩ := compareSequences_invalid [noHandsFrame] [noHandsFrame]
    (by simp)
    (by
      rintro f hf hd hhd
      rw [List.mem_singleton] at hf
      subst hf
      simp [noHandsFrame] at hhd)
    (by simp)
  rw [compareWithDatabase_single [noHandsFrame] ⟨"id1", "sign1", [noHandsFrame]⟩
    (by simp) (by simp)]
  refine ⟨_, rfl, ?_⟩
  show jsGeB (compareSequences [noHandsFrame] [noHandsFrame]) (.fin SIMILARITY_THRESHOLD) = false
  rw [hv, jsGeB_fin]
  exact decide_eq_false (not_le.mpr hlt)

theorem findBestMatch_head_of_match (recordedFrames : List FrameData)
    (savedSigns : List SavedSign) (r : ComparisonResult) (rest : List ComparisonResult)
    (hres : compareWithDatabase recordedFrames savedSigns = r :: rest) :
    findBestMatch recordedFrames savedSigns = if r.isMatch = true then some r else none := by
  rw [findBestMatch, hres]
/-- Claim C5 (amended): a candidate identical to a library entry's stored
frames is returned by `findBestMatch` with similarity at or above the
threshold, provided every candidate frame has a nonzero feature vector (a
frame with no valid hand or a degenerate all-zero hand drops the per-frame
cosine to `0` and the entry below the threshold) and no other entry's
similarity is `NaN` (a `NaN` entry can occupy the top rank unmatched). -/
theorem findBestMatch_identical (cand : List FrameData) (lib : List SavedSign) (e : SavedSign)
    (he : e ∈ lib) (hkf : e.keyframes = cand) (hne : cand ≠ [])
    (hfeat : ∀ f ∈ cand, ((extractFeatures f).map fun x => x * x).sum ≠ 0)
    (hnonan : ∀ r ∈ compareWithDatabase cand lib, r.similarity ≠ .nan) :
    ∃ r, findBestMatch cand lib = some r ∧ r.isMatch = true
      ∧ jsGeB r.similarity (.fin SIMILARITY_THRESHOLD) = true := by
  have hself : compareSequences cand cand = .fin 1 := compareSequences_self cand hne hfeat
  have hmem : (⟨e.id, e.name, compareSequences cand e.keyframes,
      jsGeB (compareSequences cand e.keyframes) (.fin SIMILARITY_THRESHOLD)⟩ : ComparisonResult)
      ∈ compareWithDatabase cand lib :=
    (mem_compareWithDatabase cand lib _).mpr
      ⟨hne, e, he, by rw [hkf]; exact hne, rfl⟩
  cases hres : compareWithDatabase cand lib with
  | nil =>
    rw [hres] at hmem
    exact absurd hmem (List.not_mem_nil _)
  | cons r0 rest =>
    have hr0mem : r0 ∈ compareWithDatabase cand lib := by
      rw [hres]
      exact List.mem_cons_self r0 rest
    obtain ⟨v0, hv0, -, hv0le⟩ := compareWithDatabase_sim_fin cand lib r0 hr0mem
      (hnonan r0 hr0mem)
    have hv0ge : (1 : ℝ) ≤ v0 := by
      have hpw := compareWithDatabase_pairwise cand lib hnonan
      rw [hres] at hpw hmem
      rcases List.mem_cons.mp hmem with heq | hrest
      · have : r0.similarity = compareSequences cand e.keyframes := by rw [← heq]
        rw [hkf, hself] at this
        rw [this] at hv0
        cases hv0
        exact le_refl 1
      · have hrel := (List.pairwise_cons.mp hpw).1 _ hrest
        rw [simRel] at hrel
        rw [hv0, hkf, hself] at hrel
        exact (jsGeB_fin_iff v0 1).mp hrel
    have hmatch : r0.isMatch = true := by
      rw [compareWithDatabase_isMatch cand lib r0 hr0mem, hv0, jsGeB_fin]
      apply decide_eq_true
      rw [SIMILARITY_THRESHOLD]
      linarith
    refine ⟨r0, ?_, hmatch, ?_⟩
    · rw [findBestMatch_head_of_match cand lib r0 rest hres, if_pos hmatch]
    · rw [hv0, jsGeB_fin]
      apply decide_eq_true
      rw [SIMILARITY_THRESHOLD]
      linarith
theorem length_resultsFilterMap (recordedFrames : List FrameData) (savedSigns : List SavedSign) :
    (savedSigns.filterMap fun savedSign =>
      if savedSign.keyframes.isEmpty then none
      else some (⟨savedSign.id, savedSign.name, compareSequences recordedFrames savedSign.keyframes,
        jsGeB (compareSequences recordedFrames savedSign.keyframes)
          (.fin SIMILARITY_THRESHOLD)⟩ : ComparisonResult)).length
      = savedSigns.countP fun s => !s.keyframes.isEmpty := by
  induction savedSigns with
  | nil => rfl
  | cons s t ih =>
    by_cases hkf : s.keyframes.isEmpty = true
    · simp only [List.filterMap_cons, hkf, List.countP_cons]
      simp [ih]
    · have hkf' : s.keyframes.isEmpty = false := by
        cases h : s.keyframes.isEmpty
        · rfl
        · exact absurd h hkf
      simp only [List.filterMap_cons, hkf', List.countP_cons]
      simp [ih]

/-- Claim C7 (amended): a non-empty candidate with no valid hand frames does
not make `compareWithDatabase` return `[]`: the result list has one entry per
library sign with non-empty keyframes, but none of them is flagged a match. -/
theorem compareWithDatabase_no_valid_hands (cand : List FrameData) (signs : List SavedSign)
    (hne : cand ≠ [])
    (hinv : ∀ f ∈ cand, ∀ hd ∈ f.hands, hd.landmarks.length ≠ 21) :
    (compareWithDatabase cand signs).length = signs.countP (fun s => !s.keyframes.isEmpty)
    ∧ ∀ r ∈ compareWithDatabase cand signs, r.isMatch = false := by
  constructor
  · rw [compareWithDatabase]
    rw [if_neg (by rw [isEmpty_false_of_ne_nil hne]; simp)]
    by_cases h2 : signs.isEmpty = true
    · rw [if_pos h2]
      have : signs = [] := by simpa [List.isEmpty_iff] using h2
      simp [this]
    · rw [if_neg h2, length_sortResults, length_resultsFilterMap]
  · intro r hr
    obtain ⟨-, s, hs, hskf, rfl⟩ := (mem_compareWithDatabase cand signs r).mp hr
    obtain ⟨v, hv, -, hlt⟩ := compareSequences_invalid cand s.keyframes hne hinv hskf
    show jsGeB (compareSequences cand s.keyframes) (.fin SIMILARITY_THRESHOLD) = false
    rw [hv, jsGeB_fin]
    exact decide_eq_false (not_le.mpr hlt)
/-! ## Translation invariance of feature extraction (claim C9, amended) -/

/-- Translate every landmark of a hand by `(dx, dy, dz)`. -/
noncomputable def translateHand (dx dy dz : ℝ) (h : HandLandmarks) : HandLandmarks :=
  ⟨h.landmarks.map fun p => ⟨p.x + dx, p.y + dy, p.z + dz⟩, h.handedness⟩

theorem coordLoop_translate (dx dy dz : ℝ) (w : HandKeypoint) :
    ∀ (idx : ℕ) (lms : List HandKeypoint),
      coordLoop ⟨w.x + dx, w.y + dy, w.z + dz⟩ idx
        (lms.map fun p => ⟨p.x + dx, p.y + dy, p.z + dz⟩) = coordLoop w idx lms := by
  intro idx lms
  induction lms generalizing idx with
  | nil => rfl
  | cons a t ih =>
    simp only [List.map_cons, coordLoop, List.cons.injEq]
    exact ⟨by ring, by ring, by ring, ih (idx + 1)⟩

theorem keyLandmarks_getD_lt (i : ℕ) : keyLandmarks.getD i 0 < 21 := by
  match i with
  | 0 => decide
  | 1 => decide
  | 2 => decide
  | 3 => decide
  | 4 => decide
  | 5 => decide
  | n + 6 => simp [keyLandmarks, List.getD]

theorem distFeats_translate (dx dy dz : ℝ) (lms : List HandKeypoint)
    (hlen : lms.length = 21) :
    distFeats (lms.map fun p => ⟨p.x + dx, p.y + dy, p.z + dz⟩) = distFeats lms := by
  rw [distFeats, distFeats]
  apply List.map_congr_left
  intro p _
  have hb1 : keyLandmarks.getD p.1 0 < lms.length := by
    rw [hlen]
    exact keyLandmarks_getD_lt p.1
  have hb2 : keyLandmarks.getD p.2 0 < lms.length := by
    rw [hlen]
    exact keyLandmarks_getD_lt p.2
  rw [getD_map_of_lt _ lms _ zeroKeypoint zeroKeypoint hb1,
    getD_map_of_lt _ lms _ zeroKeypoint zeroKeypoint hb2]
  ring_nf

theorem handStep_translate (dx dy dz : ℝ) (acc : List ℝ) (h : HandLandmarks) :
    handStep acc (translateHand dx dy dz h) = handStep acc h := by
  rw [handStep, handStep]
  by_cases hv : h.landmarks.length = 21
  · rw [if_pos (by simp [translateHand, hv]), if_pos hv]
    have hlms : (translateHand dx dy dz h).landmarks
        = h.landmarks.map fun p => ⟨p.x + dx, p.y + dy, p.z + dz⟩ := rfl
    rw [hlms]
    rw [getD_map_of_lt _ h.landmarks 0 zeroKeypoint zeroKeypoint (by rw [hv]; norm_num)]
    rw [coordLoop_translate, distFeats_translate dx dy dz h.landmarks hv]
  · rw [if_neg (by simp [translateHand, hv]), if_neg hv]

/-- Claim C9 (amended): `extractFeatures` never reads the face, and hand
coordinates enter only wrist-relatively — translating all landmarks of every
hand leaves the features unchanged.  The face-based `(coord - faceCenter) / scale`
normalization the specification describes is absent from the code. -/
theorem extractFeatures_wrist_relative (ts ts' : ℝ) (hands : List HandLandmarks)
    (face face' : Option FaceLandmarks) (dx dy dz : ℝ) :
    extractFeatures ⟨ts, hands, face⟩ = extractFeatures ⟨ts', hands, face'⟩
    ∧ extractFeatures ⟨ts, hands.map (translateHand dx dy dz), face⟩
        = extractFeatures ⟨ts, hands, face⟩ := by
  refine ⟨rfl, ?_⟩
  rw [extractFeatures_def, extractFeatures_def]
  have hfold : (hands.map (translateHand dx dy dz)).foldl handStep []
      = hands.foldl handStep [] := by
    rw [List.foldl_map]
    have : (fun (acc : List ℝ) (h : HandLandmarks) => handStep acc (translateHand dx dy dz h))
        = handStep := by
      funext acc h
      exact handStep_translate dx dy dz acc h
    rw [this]
  rw [show (⟨ts, hands.map (translateHand dx dy dz), face⟩ : FrameData).hands
    = hands.map (translateHand dx dy dz) from rfl]
  rw [show (⟨ts, hands, face⟩ : FrameData).hands = hands from rfl]
  rw [hfold]
/-- The origin face keypoint. -/
noncomputable def zeroFaceKeypoint : FaceKeypoint := ⟨0, 0, 0⟩

open Classical in
/-- Modelled from the spec: the Frame Normalizer of §4.1, which no function of
`src/` implements.  When a face is present and carries the required landmarks
(left eye corner 33, right eye corner 263, nose tip 1, forehead 10, chin 175),
every hand coordinate is re-expressed as `(coord - faceCenter) / scale`
componentwise, with the center the mean of the two eye corners and the nose
tip and the scale the larger of the inter-eye distance and the
forehead-to-chin distance; a missing face, missing landmarks or a zero scale
return the frame unchanged. -/
noncomputable def specFaceNormalize (frame : FrameData) : FrameData :=
  match frame.face with
  | none => frame
  | some face =>
      if face.landmarks.length ≤ 263 then frame
      else
        let leftEye := face.landmarks.getD 33 zeroFaceKeypoint
        let rightEye := face.landmarks.getD 263 zeroFaceKeypoint
        let noseTip := face.landmarks.getD 1 zeroFaceKeypoint
        let forehead := face.landmarks.getD 10 zeroFaceKeypoint
        let chin := face.landmarks.getD 175 zeroFaceKeypoint
        let cx := (leftEye.x + rightEye.x + noseTip.x) / 3
        let cy := (leftEye.y + rightEye.y + noseTip.y) / 3
        let cz := (leftEye.z + rightEye.z + noseTip.z) / 3
        let eyeDist := Real.sqrt ((rightEye.x - leftEye.x) ^ 2
          + (rightEye.y - leftEye.y) ^ 2 + (rightEye.z - leftEye.z) ^ 2)
        let faceHeight := Real.sqrt ((chin.x - forehead.x) ^ 2
          + (chin.y - forehead.y) ^ 2 + (chin.z - forehead.z) ^ 2)
        let scale := max eyeDist faceHeight
        if scale = 0 then frame
        else
          ⟨frame.timestamp,
            frame.hands.map fun h =>
              ⟨h.landmarks.map fun p =>
                ⟨(p.x - cx) / scale, (p.y - cy) / scale, (p.z - cz) / scale⟩,
                h.handedness⟩,
            frame.face⟩

/-- A face whose right eye corner sits at `x = 2` and every other landmark at
the origin: face center `(2/3, 0, 0)`, scale `2`. -/
noncomputable def faceC : FaceLandmarks :=
  ⟨(List.range 264).map fun i => if i = 263 then ⟨2, 0, 0⟩ else zeroFaceKeypoint⟩

/-- A valid hand whose second landmark sits at `x = 1`, the others at the
origin. -/
noncomputable def lmC : List HandKeypoint :=
  [⟨0, 0, 0⟩, ⟨1, 0, 0⟩, ⟨0, 0, 0⟩, ⟨0, 0, 0⟩, ⟨0, 0, 0⟩, ⟨0, 0, 0⟩, ⟨0, 0, 0⟩, ⟨0, 0, 0⟩,
   ⟨0, 0, 0⟩, ⟨0, 0, 0⟩, ⟨0, 0, 0⟩, ⟨0, 0, 0⟩, ⟨0, 0, 0⟩, ⟨0, 0, 0⟩, ⟨0, 0, 0⟩, ⟨0, 0, 0⟩,
   ⟨0, 0, 0⟩, ⟨0, 0, 0⟩, ⟨0, 0, 0⟩, ⟨0, 0, 0⟩, ⟨0, 0, 0⟩]

/-- A frame with one valid hand and the face `faceC`. -/
noncomputable def frameC : FrameData := ⟨0, [⟨lmC, "Right"⟩], some faceC⟩

theorem faceC_getD (k : ℕ) (hk : k < 264) :
    faceC.landmarks.getD k zeroFaceKeypoint
      = if k = 263 then ⟨2, 0, 0⟩ else zeroFaceKeypoint := by
  rw [show faceC.landmarks
    = (List.range 264).map fun i => if i = 263 then (⟨2, 0, 0⟩ : FaceKeypoint)
        else zeroFaceKeypoint from rfl]
  rw [getD_map_of_lt _ _ k 0 zeroFaceKeypoint (by simpa using hk)]
  rw [List.getD_eq_getElem _ _ (by simpa using hk), List.getElem_range]

theorem specFaceNormalize_frameC :
    specFaceNormalize frameC
      = ⟨0, [⟨lmC.map fun p => ⟨(p.x - 2 / 3) / 2, (p.y - 0) / 2, (p.z - 0) / 2⟩, "Right"⟩],
          some faceC⟩ := by
  rw [specFaceNormalize]
  show (if faceC.landmarks.length ≤ 263 then frameC else _) = _
  rw [if_neg (by rw [show faceC.landmarks.length = 264 from by simp [faceC]]; norm_num)]
  rw [faceC_getD 33 (by norm_num), faceC_getD 263 (by norm_num), faceC_getD 1 (by norm_num),
    faceC_getD 10 (by norm_num), faceC_getD 175 (by norm_num)]
  norm_num [zeroFaceKeypoint]
  rw [show Real.sqrt 4 = 2 from by
    rw [show (4 : ℝ) = 2 ^ 2 by norm_num, Real.sqrt_sq]
    norm_num]
  exact ⟨rfl, rfl, rfl⟩
theorem extractFeatures_frameC_entry3 : (extractFeatures frameC).getD 3 0 = 1 := by
  have h := extractFeatures_single 0 ⟨lmC, "Right"⟩ (some faceC) rfl
  rw [show frameC = ⟨0, [⟨lmC, "Right"⟩], some faceC⟩ from rfl, h]
  have hw : (⟨lmC, "Right"⟩ : HandLandmarks).landmarks.getD 0 zeroKeypoint = ⟨0, 0, 0⟩ := rfl
  rw [hw]
  norm_num [lmC, coordLoop, lmWeight, keyLandmarks, List.getD_cons_succ, List.getD_cons_zero]

theorem extractFeatures_frameCn_entry3 :
    (extractFeatures (specFaceNormalize frameC)).getD 3 0 = 1 / 2 := by
  rw [specFaceNormalize_frameC]
  have h21 : ((⟨lmC.map fun p => ⟨(p.x - 2 / 3) / 2, (p.y - 0) / 2, (p.z - 0) / 2⟩,
      "Right"⟩ : HandLandmarks)).landmarks.length = 21 := by
    simp [lmC]
  rw [extractFeatures_single 0 _ (some faceC) h21]
  norm_num [lmC, coordLoop, lmWeight, keyLandmarks, List.getD_cons_succ, List.getD_cons_zero]

/-- Claim C9 counterexample: `frameC` carries face landmarks, yet
`extractFeatures` returns wrist-relative features of the raw coordinates, not
of the face-normalized coordinates `(coord - faceCenter) / scale` the
specification prescribes: the two feature vectors differ (entry 3 is `1`
versus `1/2`). -/
theorem extractFeatures_ignores_face_cex :
    frameC.face ≠ none
    ∧ extractFeatures frameC ≠ extractFeatures (specFaceNormalize frameC) := by
  refine ⟨by simp [frameC], ?_⟩
  intro heq
  have h1 := extractFeatures_frameC_entry3
  rw [heq, extractFeatures_frameCn_entry3] at h1
  norm_num at h1
/-! ## The claims -/

theorem dtwCell_row0 (seq1 seq2 : List (List ℝ)) :
    ∀ i, dtwCell seq1 seq2 i 0
      = ((List.range i).map fun k =>
          euclideanDistance (seq1.getD (k + 1) []) (seq2.getD 0 [])).foldl jsAdd
            (euclideanDistance (seq1.getD 0 []) (seq2.getD 0 [])) := by
  intro i
  induction i with
  | zero => simp only [dtwCell, List.range_zero, List.map_nil, List.foldl_nil]
  | succ i ih =>
    simp only [dtwCell]
    rw [ih, List.range_succ, List.map_append, List.foldl_append]
    rfl

/-- Claim C2: `calculateDTW` returns `D[m-1][n-1] / (m + n)` for the cost
matrix whose corner is the plain distance, whose first row and column
accumulate along a single predecessor (shown both as the one-step recurrence
and as the derived closed form, a plain left fold of the row distances with
no three-way min), and whose interior cells take
`cost + min(D[i-1][j], D[i][j-1], D[i-1][j-1])`. -/
theorem calculateDTW_spec (seq1 seq2 : List (List ℝ)) (h1 : seq1 ≠ []) (h2 : seq2 ≠ []) :
    calculateDTW seq1 seq2
      = jsDiv (dtwCell seq1 seq2 (seq1.length - 1) (seq2.length - 1))
          (.fin (((seq1.length + seq2.length : ℕ) : ℝ)))
    ∧ dtwCell seq1 seq2 0 0 = euclideanDistance (seq1.getD 0 []) (seq2.getD 0 [])
    ∧ (∀ i, dtwCell seq1 seq2 (i + 1) 0
        = jsAdd (dtwCell seq1 seq2 i 0)
            (euclideanDistance (seq1.getD (i + 1) []) (seq2.getD 0 [])))
    ∧ (∀ j, dtwCell seq1 seq2 0 (j + 1)
        = jsAdd (dtwCell seq1 seq2 0 j)
            (euclideanDistance (seq1.getD 0 []) (seq2.getD (j + 1) [])))
    ∧ (∀ i j, dtwCell seq1 seq2 (i + 1) (j + 1)
        = jsAdd (euclideanDistance (seq1.getD (i + 1) []) (seq2.getD (j + 1) []))
            (jsMin (dtwCell seq1 seq2 i (j + 1))
              (jsMin (dtwCell seq1 seq2 (i + 1) j) (dtwCell seq1 seq2 i j))))
    ∧ (∀ i, dtwCell seq1 seq2 i 0
        = ((List.range i).map fun k =>
            euclideanDistance (seq1.getD (k + 1) []) (seq2.getD 0 [])).foldl jsAdd
              (euclideanDistance (seq1.getD 0 []) (seq2.getD 0 []))) := by
  refine ⟨?_, by simp only [dtwCell], fun i => by simp only [dtwCell],
    fun j => by simp only [dtwCell], fun i j => by simp only [dtwCell],
    dtwCell_row0 seq1 seq2⟩
  rw [calculateDTW]
  push_cast
  rfl

theorem calculateDTW_spec_witness :
    calculateDTW [[(0 : ℝ)]] [[(0 : ℝ)]]
      = jsDiv (dtwCell [[(0 : ℝ)]] [[(0 : ℝ)]] 0 0) (.fin 2) := by
  have h := (calculateDTW_spec [[(0 : ℝ)]] [[(0 : ℝ)]] (by simp) (by simp)).1
  simpa using h

/-- Claim C3: for a non-empty input, `normalizeSequence` returns exactly
`TARGET_FRAMES = 60` frames, the `i`-th being the input frame at source index
`min (round (i * (len - 1) / (TARGET_FRAMES - 1))) (len - 1)`; an empty input
yields an empty output. -/
theorem normalizeSequence_spec (frames : List FrameData) :
    (frames = [] → normalizeSequence frames = [])
    ∧ (frames ≠ [] →
        (normalizeSequence frames).length = TARGET_FRAMES
        ∧ ∀ i, i < TARGET_FRAMES →
            (normalizeSequence frames).getD i dummyFrame
              = frames.getD
                  (min ((round (((i : ℚ) * ((frames.length : ℚ) - 1))
                      / ((TARGET_FRAMES : ℚ) - 1))).toNat)
                    (frames.length - 1)) dummyFrame) := by
  refine ⟨fun h => by rw [h]; rfl, fun h => ⟨normalizeSequence_length frames h, ?_⟩⟩
  intro i hi
  exact normalizeSequence_getD frames h i hi

/-- Claim C4 (amended): `extractFeatures` is total, returns the all-zero
vector of length 78 — not 156 — when the frame has no hand with exactly 21
landmarks, and returns exactly 156 features when it has at least one. -/
theorem extractFeatures_fixed_length (frame : FrameData) :
    ((∀ hd ∈ frame.hands, hd.landmarks.length ≠ 21)
      → extractFeatures frame = List.replicate 78 0)
    ∧ ((∃ hd ∈ frame.hands, hd.landmarks.length = 21)
      → (extractFeatures frame).length = 156) :=
  ⟨extractFeatures_of_no_valid frame, extractFeatures_length_of_valid frame⟩

/-- Claim C4 counterexample: at the frame with no hands the feature vector is
the zero vector of length 78, not of the configured length 156. -/
theorem extractFeatures_length_cex :
    extractFeatures ⟨0, [], none⟩ = List.replicate 78 0
    ∧ (extractFeatures ⟨0, [], none⟩).length ≠ 156 := by
  have h := extractFeatures_of_no_valid ⟨0, [], none⟩ (by simp)
  exact ⟨h, by rw [h]; simp⟩

theorem frameA_feat_nonzero :
    ∀ f ∈ [frameA], ((extractFeatures f).map fun x => x * x).sum ≠ 0 := by
  intro f hf
  rw [List.mem_singleton] at hf
  subst hf
  rw [extractFeatures_frameA, sumSq_vA]
  norm_num

theorem findBestMatch_identical_witness :
    ∃ r, findBestMatch [frameA] [⟨"s1", "n1", [frameA]⟩] = some r ∧ r.isMatch = true
      ∧ jsGeB r.similarity (.fin SIMILARITY_THRESHOLD) = true := by
  apply findBestMatch_identical [frameA] [⟨"s1", "n1", [frameA]⟩] ⟨"s1", "n1", [frameA]⟩
    (List.mem_singleton_self _) rfl (by simp) frameA_feat_nonzero
  intro r hr
  rw [compareWithDatabase_single [frameA] ⟨"s1", "n1", [frameA]⟩ (by simp) (by simp)] at hr
  rw [List.mem_singleton] at hr
  subst hr
  show compareSequences [frameA] [frameA] ≠ .nan
  rw [compareSequences_self [frameA] (by simp) frameA_feat_nonzero]
  intro h
  exact JSNum.noConfusion h

/-- Claim C5 counterexample: the candidate `[noHandsFrame]` is identical to
the stored frames of the only library entry, yet `findBestMatch` returns
`null`: with no valid hand the per-frame cosine is `0`, the similarity is
`0.7 ^ 1.2 < 0.92`, and the entry is not a match. -/
theorem findBestMatch_identical_cex :
    (⟨"id1", "sign1", [noHandsFrame]⟩ : SavedSign).keyframes = [noHandsFrame]
    ∧ findBestMatch [noHandsFrame] [⟨"id1", "sign1", [noHandsFrame]⟩] = none := by
  refine ⟨rfl, ?_⟩
  obtain ⟨r, hr, hm⟩ := cwdb_noHands
  rw [findBestMatch_head_of_match _ _ r [] hr, hm]
  simp

/-- Claim C6: `findBestMatch` returns exactly the head of the
`compareWithDatabase` result list when that head's `isMatch` flag is true,
and `null` otherwise (the empty list included); every result's `isMatch` is
its similarity JS-`>=` the single threshold `0.92`; and whenever no
similarity is `NaN` the result list is sorted by similarity descending. -/
theorem findBestMatch_top_spec (recordedFrames : List FrameData) (savedSigns : List SavedSign) :
    (∀ r : ComparisonResult, findBestMatch recordedFrames savedSigns = some r ↔
      ((compareWithDatabase recordedFrames savedSigns).head? = some r ∧ r.isMatch = true))
    ∧ (∀ r ∈ compareWithDatabase recordedFrames savedSigns,
        r.isMatch = jsGeB r.similarity (.fin SIMILARITY_THRESHOLD))
    ∧ ((∀ r ∈ compareWithDatabase recordedFrames savedSigns, r.similarity ≠ .nan) →
        (compareWithDatabase recordedFrames savedSigns).Pairwise
          (fun a b => jsGeB a.similarity b.similarity = true)) :=
  ⟨fun r => findBestMatch_iff recordedFrames savedSigns r,
   compareWithDatabase_isMatch recordedFrames savedSigns,
   fun h => compareWithDatabase_pairwise recordedFrames savedSigns h⟩

theorem compareWithDatabase_no_valid_hands_witness :
    (compareWithDatabase [noHandsFrame] [⟨"id1", "sign1", [noHandsFrame]⟩]).length
      = ([⟨"id1", "sign1", [noHandsFrame]⟩] : List SavedSign).countP
          (fun s => !s.keyframes.isEmpty)
    ∧ ∀ r ∈ compareWithDatabase [noHandsFrame] [⟨"id1", "sign1", [noHandsFrame]⟩],
        r.isMatch = false :=
  compareWithDatabase_no_valid_hands [noHandsFrame] [⟨"id1", "sign1", [noHandsFrame]⟩]
    (by simp)
    (by
      rintro f hf hd hhd
      rw [List.mem_singleton] at hf
      subst hf
      simp [noHandsFrame] at hhd)

/-- Claim C7 counterexample: a non-empty candidate with zero valid hand
frames against a non-empty library does not produce the empty result list —
the code pushes a (non-matching) result for the entry. -/
theorem compareWithDatabase_not_empty_cex :
    (∀ f ∈ [noHandsFrame], ∀ hd ∈ f.hands, hd.landmarks.length ≠ 21)
    ∧ compareWithDatabase [noHandsFrame] [⟨"id1", "sign1", [noHandsFrame]⟩] ≠ [] := by
  constructor
  · rintro f hf hd hhd
    rw [List.mem_singleton] at hf
    subst hf
    simp [noHandsFrame] at hhd
  · obtain ⟨r, hr, -⟩ := cwdb_noHands
    rw [hr]
    simp

/-- Claim C8 (amended): `normalizeSequence` applies no validity filtering and
no minimum-quality fallback: every non-empty sequence — also one with fewer
than `MIN_QUALITY_FRAMES` valid frames, or none — is resampled to exactly
`TARGET_FRAMES` frames, all drawn from the input. -/
theorem normalizeSequence_no_filter (frames : List FrameData) (h : frames ≠ []) :
    (normalizeSequence frames).length = TARGET_FRAMES
    ∧ ∀ x ∈ normalizeSequence frames, x ∈ frames :=
  ⟨normalizeSequence_length frames h, normalizeSequence_mem frames h⟩

theorem normalizeSequence_no_filter_witness :
    (normalizeSequence [noHandsFrame]).length = TARGET_FRAMES
    ∧ ∀ x ∈ normalizeSequence [noHandsFrame], x ∈ [noHandsFrame] :=
  normalizeSequence_no_filter [noHandsFrame] (by simp)

/-- Claim C8 counterexample: the one-frame sequence `[noHandsFrame]` has no
valid-hand frame and is far below `MIN_QUALITY_FRAMES = 40`, yet
`normalizeSequence` does not return it unresampled: it stretches it to 60
frames. -/
theorem normalizeSequence_fallback_cex :
    (∀ hd ∈ noHandsFrame.hands, hd.landmarks.length ≠ 21)
    ∧ ([noHandsFrame] : List FrameData).length < MIN_QUALITY_FRAMES
    ∧ normalizeSequence [noHandsFrame] ≠ [noHandsFrame] := by
  refine ⟨by simp [noHandsFrame], by simp [MIN_QUALITY_FRAMES], ?_⟩
  intro heq
  have h1 := normalizeSequence_length [noHandsFrame] (by simp)
  rw [heq] at h1
  simp [TARGET_FRAMES] at h1

/-- Claim C10: `cosineSimilarity` returns `0` — it does not throw — whenever
the two vectors have different lengths, so a short all-zero feature vector
(length 78, from a frame with no valid hand) compared against a full-length
vector contributes a silent `0`. -/
theorem cosineSimilarity_length_mismatch_spec (a b : List ℝ) (h : a.length ≠ b.length) :
    cosineSimilarity a b = 0 :=
  cosineSimilarity_mismatch a b h

theorem cosineSimilarity_length_mismatch_witness :
    cosineSimilarity (extractFeatures noHandsFrame) (List.replicate 156 1) = 0 :=
  cosineSimilarity_length_mismatch_spec _ _ (by
    rw [extractFeatures_of_no_valid noHandsFrame (by simp [noHandsFrame])]
    simp)
